import Mathlib

/-!
# Polyphony libev backend: a shallow embedding

Source: `ext/polyphony/libev_backend.c` and `ext/polyphony/polyphony.h`.

Conventions of the embedding.

* C integers (`int`, `long`, `ssize_t`) are mathematical integers (`Int`); `size_t` lengths
  are natural numbers. Values of the 64-bit types stay far below their bounds. Where a value
  of the 32-bit type `int` can leave its range, the reduction into the range is explicit
  (`to_int`): the counter `run_no_wait_count` incremented by `poll`, and the `long` lengths
  that `write` and `writev` pass to `INT2NUM`. The other values of type `int` (`ref_count`,
  `running`, descriptors, process ids, errno values) are taken inside the range of `int`, where
  `INT2NUM` boxes a value as it is.
* A pointer into a buffer is the offset from the start of that buffer.
* The kernel is a script: the list of the results of the successive system calls of one
  operation. When the script is used up while the operation is still looping, the outcome is
  `Outcome.pending`.
* The scheduler is a function `resume : Nat → VALUE`: the value with which the fiber is resumed
  at its i-th suspension (readiness wait or snooze) inside the operation.
* Every observable action of an operation is logged, in order, in a list of `Event`s.
* Host services that are not part of this repository (handle resolution through `@io`,
  `GetOpenFile`, the non-blocking cache, encoding and taint marks, GC guards, the rewind of the
  host read buffer) do not influence the properties studied and are left out.
-/

namespace Polyphony

/-! ## Data model -/

/-- Byte values. The backend moves bytes and never inspects them. -/
abbrev Byte := Nat

/-- Host values (the C type `VALUE`), as far as the backend tells them apart. -/
inductive VALUE where
  | Qnil
  | Qtrue
  | Qfalse
  | int (n : Int)
  | str (obj : Nat) (bytes : List Byte)
  | ary2 (a b : VALUE)
  | fiber (id : Nat)
  | exception (id : Nat)
  | handle (fd : Int)
  | socket (fd : Int)
  deriving DecidableEq, Repr

/-- The macro `TEST_EXCEPTION(ret)` of polyphony.h: is the value a kind of Exception. -/
def TEST_EXCEPTION : VALUE → Bool
  | .exception _ => true
  | _ => false

/-! ## Machine integers -/

/-- Largest value of the C type `int` (32 bits). -/
def INT_MAX : Int := 2147483647

/-- Smallest value of the C type `int` (32 bits). -/
def INT_MIN : Int := -2147483648

/-- The value held by a C `int` in which the integer `x` is stored: `x` itself when
`INT_MIN ≤ x ≤ INT_MAX`, and otherwise `x` reduced modulo 2^32 into that range (two's
complement). This is the conversion of a `long` to `int`, and the value left by `++` in an
`int` that held `INT_MAX`. -/
def to_int (x : Int) : Int := (x + 2147483648) % 4294967296 - 2147483648

/-- The host macro `INT2NUM(v)`. Its parameter has the type `int`: an argument of type `long`
is converted to `int` first, and the result is boxed as a host integer. -/
def INT2NUM (x : Int) : VALUE := .int (to_int x)

/-! ## System calls -/

/-- Result of a system call: failure with an errno (the call returned a negative number),
or success with a value. -/
inductive Sys (α : Type) where
  | fail (errno : Int)
  | ok (val : α)
  deriving DecidableEq, Repr

/-- Value of `EAGAIN` in errno.h (Linux). -/
def EAGAIN : Int := 11

/-- Value of `EWOULDBLOCK` in errno.h (Linux, where it equals `EAGAIN`). -/
def EWOULDBLOCK : Int := 11

/-- The test `e != EWOULDBLOCK && e != EAGAIN` that precedes every `rb_syserr_fail`. -/
def fatal_errno (e : Int) : Bool := e != EWOULDBLOCK && e != EAGAIN

/-- The modes of `ev_run` used by the backend. -/
inductive EvRunMode where
  | EVRUN_NOWAIT
  | EVRUN_ONCE
  deriving DecidableEq, Repr

/-- The event masks used by the backend. -/
inductive EvMask where
  | EV_READ
  | EV_WRITE
  deriving DecidableEq, Repr

/-- The trace symbols used by `LibevBackend_poll`. -/
inductive TraceSym where
  | SYM_fiber_ev_loop_enter
  | SYM_fiber_ev_loop_leave
  deriving DecidableEq, Repr

/-- The multiplexer (`struct ev_loop`), as far as the backend observes it: whether it is the
default loop, how many watchers are started on it, and `ev_pending_count`. -/
structure EvLoop where
  is_default : Bool
  active : Nat
  pending : Nat
  deriving DecidableEq, Repr

/-- One entry of the `struct iovec` array of `LibevBackend_writev`. The base pointer is the
pair (index of the string in `argv`, offset inside that string). -/
structure iovec where
  iov_base : Nat × Nat
  iov_len : Nat
  deriving DecidableEq, Repr

/-- The struct `LibevBackend_t` (the `break_async` watcher is not needed here). -/
structure LibevBackend_t where
  ev_loop : EvLoop
  running : Int
  ref_count : Int
  run_no_wait_count : Int
  deriving DecidableEq, Repr

/-- Observable actions, in the order in which an operation performs them. -/
inductive Event where
  | fiber_trace (sym : TraceSym) (fiber : VALUE)
  | ev_run (mode : EvRunMode) (running ref_count run_no_wait_count : Int)
  | ev_loop_destroy (loop : EvLoop)
  | sys_read (fd : Int) (buf : Nat) (count : Int) (ret : Sys (List Byte))
  | sys_write (fd : Int) (buf : Nat) (count : Int) (ret : Sys Nat)
  | sys_writev (fd : Int) (iov : List iovec) (ret : Sys Nat)
  | iov_advanced (iov : List iovec) (total_written : Int)
  | sys_accept (fd : Int) (ret : Sys Nat)
  | sys_close (fd : Int)
  | wait_fd (fd : Int) (events : EvMask) (resumed : VALUE)
  | snooze (resumed : VALUE)
  | make_open_file (fd : Int)
  | rb_yield (v : VALUE)
  | malloc_iov (count : Nat)
  | free_iov
  | make_runnable (fiber value : VALUE)
  deriving DecidableEq, Repr

/-- How a call of an operation ends. -/
inductive Outcome where
  | returned (v : VALUE)
  | raised (exc : VALUE)
  | syserr (errno : Int)
  | unmodelled
  | pending
  deriving DecidableEq, Repr

/-- How the main loop of an operation is left: through `break` or its loop condition (`done`,
with the local variables), through `goto error`, through `rb_syserr_fail`, by a step outside
the embedding (undefined behaviour of C), or not at all within the script (`pending`). -/
inductive LoopExit (σ : Type) where
  | done (s : σ)
  | error (v : VALUE)
  | syserr (errno : Int)
  | unmodelled
  | pending

/-! ## Reactor core -/

/-- Modelled from the spec: `Queue_len` is declared in polyphony.h and defined elsewhere; the
run queue is the list of its runnable fibers and `Queue_len` is its length. -/
def Queue_len (queue : List VALUE) : Int := queue.length

/-- The effect of `COND_TRACE(2, sym, fiber)`. -/
def COND_TRACE (tracing_enabled : Bool) (sym : TraceSym) (fiber : VALUE) : List Event :=
  if tracing_enabled then [Event.fiber_trace sym fiber] else []

/-- The function `LibevBackend_poll`. The multiplexer step `ev_run` is a parameter: it acts on
the loop only (its callbacks make fibers runnable and do not touch the backend struct). The
counter `run_no_wait_count` is an `int`: `backend->run_no_wait_count++` stores `to_int` of the
successor. The comparison with `runnable_count`, a `long`, is made on the exact values. -/
def LibevBackend_poll (ev_run : EvLoop → EvRunMode → EvLoop) (tracing_enabled : Bool)
    (backend : LibevBackend_t) (nowait current_fiber : VALUE) (queue : List VALUE) :
    LibevBackend_t × List Event :=
  let is_nowait : Bool := decide (nowait = VALUE.Qtrue)
  let runnable_count := Queue_len queue
  let b1 : LibevBackend_t :=
    if is_nowait then
      { backend with run_no_wait_count := to_int (backend.run_no_wait_count + 1) }
    else backend
  if is_nowait && (decide (b1.run_no_wait_count < runnable_count)
      || decide (b1.run_no_wait_count < 10)) then
    (b1, [])
  else
    let b2 : LibevBackend_t := { b1 with run_no_wait_count := 0 }
    let b3 : LibevBackend_t := { b2 with running := 1 }
    let mode := if is_nowait then EvRunMode.EVRUN_NOWAIT else EvRunMode.EVRUN_ONCE
    let b4 : LibevBackend_t := { b3 with ev_loop := ev_run b3.ev_loop mode }
    let b5 : LibevBackend_t := { b4 with running := 0 }
    (b5, COND_TRACE tracing_enabled .SYM_fiber_ev_loop_enter current_fiber
          ++ [Event.ev_run mode b3.running b3.ref_count b3.run_no_wait_count]
          ++ COND_TRACE tracing_enabled .SYM_fiber_ev_loop_leave current_fiber)

/-- Is the event a run of the multiplexer. -/
def is_ev_run : Event → Bool
  | .ev_run _ _ _ _ => true
  | _ => false

/-- Consecutive calls `poll(true, fiber, queue)`, one for each run queue of the list (the run
queue may change between the calls). Gives the final backend and the trace of every call. -/
def poll_nowait_seq (ev_run : EvLoop → EvRunMode → EvLoop) (tracing_enabled : Bool)
    (current_fiber : VALUE) : LibevBackend_t → List (List VALUE) →
    LibevBackend_t × List (List Event)
  | backend, [] => (backend, [])
  | backend, queue :: rest =>
    let r := LibevBackend_poll ev_run tracing_enabled backend .Qtrue current_fiber queue
    let s := poll_nowait_seq ev_run tracing_enabled current_fiber r.1 rest
    (s.1, r.2 :: s.2)

/-! ## Fork hook and reference count -/

/-- Modelled from the spec: `ev_loop_destroy` followed by `EV_DEFAULT`. libev (ext/libev) is not
among the sources; by section 4.14 of the spec the inherited multiplexer is destroyed
unconditionally and "a fresh default multiplexer" is adopted: the default loop, with no
watcher started and none pending. -/
def EV_DEFAULT : EvLoop := ⟨true, 0, 0⟩

/-- The function `LibevBackend_post_fork`. -/
def LibevBackend_post_fork (backend : LibevBackend_t) : LibevBackend_t × List Event :=
  ({ backend with ev_loop := EV_DEFAULT }, [Event.ev_loop_destroy backend.ev_loop])

/-- The function `LibevBackend_ref`. -/
def LibevBackend_ref (backend : LibevBackend_t) : LibevBackend_t :=
  { backend with ref_count := backend.ref_count + 1 }

/-- The function `LibevBackend_unref`. -/
def LibevBackend_unref (backend : LibevBackend_t) : LibevBackend_t :=
  { backend with ref_count := backend.ref_count - 1 }

/-- The function `LibevBackend_ref_count`. -/
def LibevBackend_ref_count (backend : LibevBackend_t) : Int := backend.ref_count

/-- The function `LibevBackend_reset_ref_count`. -/
def LibevBackend_reset_ref_count (backend : LibevBackend_t) : LibevBackend_t :=
  { backend with ref_count := 0 }

/-- The function `LibevBackend_pending_count`. -/
def LibevBackend_pending_count (backend : LibevBackend_t) : VALUE :=
  .int backend.ev_loop.pending

/-! ## Suspension -/

/-- The function `libev_await`: `resumed` is what `Thread_switch_fiber` returns. -/
def libev_await (backend : LibevBackend_t) (resumed : VALUE) : LibevBackend_t × VALUE :=
  let b1 : LibevBackend_t := { backend with ref_count := backend.ref_count + 1 }
  let ret := resumed
  let b2 : LibevBackend_t := { b1 with ref_count := b1.ref_count - 1 }
  (b2, ret)

/-- The watcher stamp of `libev_wait_fd_with_watcher`: a watcher whose fiber is still `Qnil`
gets `rb_fiber_current()`, which is the fiber `cur`. -/
def stamp_fiber (watcher_fiber : VALUE) (cur : Nat) : VALUE :=
  if watcher_fiber = VALUE.Qnil then VALUE.fiber cur else watcher_fiber

/-! ## Write -/

/-- Local variables of `LibevBackend_write`: `buf` (offset into the string), `left`, the fiber
of the watcher, and the number of suspensions so far. -/
structure WriteState where
  buf : Nat
  left : Int
  watcher_fiber : VALUE
  susp : Nat
  deriving DecidableEq, Repr

/-- The loop `while (left > 0)` of `LibevBackend_write`. -/
def LibevBackend_write_while (fd : Int) (cur : Nat) (resume : Nat → VALUE) :
    List (Sys Nat) → WriteState → LoopExit WriteState × List Event
  | [], st => if st.left > 0 then (.pending, []) else (.done st, [])
  | r :: rest, st =>
    if st.left > 0 then
      match r with
      | .fail e =>
        if fatal_errno e then (.syserr e, [.sys_write fd st.buf st.left r])
        else
          let v := resume st.susp
          if TEST_EXCEPTION v then
            (.error v, [.sys_write fd st.buf st.left r, .wait_fd fd .EV_WRITE v])
          else
            let x := LibevBackend_write_while fd cur resume rest
              { st with watcher_fiber := stamp_fiber st.watcher_fiber cur, susp := st.susp + 1 }
            (x.1, .sys_write fd st.buf st.left r :: .wait_fd fd .EV_WRITE v :: x.2)
      | .ok n =>
        let x := LibevBackend_write_while fd cur resume rest
          { st with buf := st.buf + n, left := st.left - n }
        (x.1, .sys_write fd st.buf st.left r :: x.2)
    else (.done st, [])

/-- The function `LibevBackend_write`, for the string `str` and the script `sys` of the results
of the successive `write` system calls. The value returned is `INT2NUM(len)` with `len` a
`long`. -/
def LibevBackend_write (fd : Int) (cur : Nat) (resume : Nat → VALUE) (str : List Byte)
    (sys : List (Sys Nat)) : Outcome × List Event :=
  let len : Int := str.length
  let x := LibevBackend_write_while fd cur resume sys ⟨0, len, .Qnil, 0⟩
  match x.1 with
  | .done st =>
    if st.watcher_fiber = VALUE.Qnil then
      let v := resume st.susp
      if TEST_EXCEPTION v then (.raised v, x.2 ++ [.snooze v])
      else (.returned (INT2NUM len), x.2 ++ [.snooze v])
    else (.returned (INT2NUM len), x.2)
  | .error v => (.raised v, x.2)
  | .syserr e => (.syserr e, x.2)
  | .unmodelled => (.unmodelled, x.2)
  | .pending => (.pending, x.2)

/-- The iovec array built by the first loop of `LibevBackend_writev`: entry i points at the
start of `argv[i]` and has its length. -/
def make_iov : Nat → List (List Byte) → List iovec
  | _, [] => []
  | i, s :: rest => ⟨(i, 0), s.length⟩ :: make_iov (i + 1) rest

/-- The sum `total_length` accumulated by the first loop of `LibevBackend_writev`. -/
def iov_total : List iovec → Int
  | [] => 0
  | e :: rest => e.iov_len + iov_total rest

/-- The inner loop `while (n > 0)` of `LibevBackend_writev` on the entries from `iov_ptr` on.
Reading `iov_ptr[0]` past the last entry is outside the embedding (`none`). -/
def iov_advance : Int → List iovec → Option (List iovec)
  | n, [] => if n > 0 then none else some []
  | n, e :: rest =>
    if n > 0 then
      if n < e.iov_len then
        some ({ iov_base := (e.iov_base.1, e.iov_base.2 + n.toNat),
                iov_len := e.iov_len - n.toNat } :: rest)
      else iov_advance (n - e.iov_len) rest
    else some (e :: rest)

/-- Local variables of `LibevBackend_writev`: the entries `iov_ptr[0 .. iov_count)`,
`total_written`, the fiber of the watcher, and the number of suspensions so far. -/
structure WritevState where
  iov_ptr : List iovec
  total_written : Int
  watcher_fiber : VALUE
  susp : Nat
  deriving DecidableEq, Repr

/-- The loop `while (1)` of `LibevBackend_writev`. After each advancement of the iovec pointer
the entries left and `total_written` are logged (`Event.iov_advanced`). -/
def LibevBackend_writev_while (fd : Int) (cur : Nat) (resume : Nat → VALUE)
    (total_length : Int) :
    List (Sys Nat) → WritevState → LoopExit WritevState × List Event
  | [], _ => (.pending, [])
  | r :: rest, st =>
    match r with
    | .fail e =>
      if fatal_errno e then (.syserr e, [.sys_writev fd st.iov_ptr r])
      else
        let v := resume st.susp
        if TEST_EXCEPTION v then
          (.error v, [.sys_writev fd st.iov_ptr r, .wait_fd fd .EV_WRITE v])
        else
          let x := LibevBackend_writev_while fd cur resume total_length rest
            { st with watcher_fiber := stamp_fiber st.watcher_fiber cur, susp := st.susp + 1 }
          (x.1, .sys_writev fd st.iov_ptr r :: .wait_fd fd .EV_WRITE v :: x.2)
    | .ok n =>
      let total_written := st.total_written + n
      if total_written = total_length then
        (.done { st with total_written := total_written }, [.sys_writev fd st.iov_ptr r])
      else
        match iov_advance n st.iov_ptr with
        | none => (.unmodelled, [.sys_writev fd st.iov_ptr r])
        | some iov =>
          let x := LibevBackend_writev_while fd cur resume total_length rest
            { st with iov_ptr := iov, total_written := total_written }
          (x.1, .sys_writev fd st.iov_ptr r :: .iov_advanced iov total_written :: x.2)

/-- The function `LibevBackend_writev` for the strings `argv` and the script `sys` of the
results of the successive `writev` system calls. The failure of `malloc` is not modelled;
`rb_syserr_fail` leaves the function at once. The value returned is `INT2NUM(total_written)`
with `total_written` a `long`. -/
def LibevBackend_writev (fd : Int) (cur : Nat) (resume : Nat → VALUE)
    (argv : List (List Byte)) (sys : List (Sys Nat)) : Outcome × List Event :=
  let iov := make_iov 0 argv
  let total_length := iov_total iov
  let x := LibevBackend_writev_while fd cur resume total_length sys ⟨iov, 0, .Qnil, 0⟩
  match x.1 with
  | .done st =>
    if st.watcher_fiber = VALUE.Qnil then
      let v := resume st.susp
      if TEST_EXCEPTION v then
        (.raised v, .malloc_iov argv.length :: x.2 ++ [.snooze v, .free_iov])
      else
        (.returned (INT2NUM st.total_written),
          .malloc_iov argv.length :: x.2 ++ [.snooze v, .free_iov])
    else (.returned (INT2NUM st.total_written), .malloc_iov argv.length :: x.2 ++ [.free_iov])
  | .error v => (.raised v, .malloc_iov argv.length :: x.2 ++ [.free_iov])
  | .syserr e => (.syserr e, .malloc_iov argv.length :: x.2)
  | .unmodelled => (.unmodelled, .malloc_iov argv.length :: x.2)
  | .pending => (.pending, .malloc_iov argv.length :: x.2)

/-- The concatenation b1 ++ ... ++ bk of the buffers. -/
def concat_bufs : List (List Byte) → List Byte
  | [] => []
  | s :: rest => s ++ concat_bufs rest

/-- A host string: the object identity, the character storage (its size is the capacity) and
`RSTRING_LEN`. The contents of the string are the first `len` bytes of the storage. -/
structure RString where
  obj : Nat
  mem : List Byte
  len : Nat
  deriving DecidableEq, Repr

/-- The contents of a host string. -/
def RString.bytes (s : RString) : List Byte := s.mem.take s.len

/-- Host API `rb_str_new(0, len)`: a new object of length `len`, identity `obj`. -/
def rb_str_new (obj : Nat) (len : Nat) : RString := ⟨obj, List.replicate len 0, len⟩

/-- Host API `rb_str_capacity`. -/
def rb_str_capacity (s : RString) : Nat := s.mem.length

/-- Host API `rb_str_modify_expand(str, expand)`: the capacity becomes at least
`RSTRING_LEN + expand`; the storage already there and the length are kept. -/
def rb_str_modify_expand (s : RString) (expand : Nat) : RString :=
  { s with mem := s.mem ++ List.replicate (s.len + expand - s.mem.length) 0 }

/-- Host API `rb_str_resize(str, n)`: the length becomes `n`; the first `n` bytes of the
storage are kept. The capacity left is taken to be exactly `n`, the least the host grants. -/
def rb_str_resize (s : RString) (n : Nat) : RString :=
  { s with mem := (s.mem ++ List.replicate (n - s.mem.length) 0).take n, len := n }

/-- Host API `rb_str_set_len(str, n)`. -/
def rb_str_set_len (s : RString) (n : Nat) : RString := { s with len := n }

/-- The function `io_setstrbuf` (outside Windows): the string and the `shrinkable` flag.
`alloc` is the identity that the host gives to the next new object. -/
def io_setstrbuf (str : Option RString) (len : Int) (alloc : Nat) : RString × Bool :=
  match str with
  | none => (rb_str_new alloc len.toNat, true)
  | some s =>
    let clen : Int := s.len
    if clen ≥ len then (s, false)
    else (rb_str_modify_expand s (len - clen).toNat, false)

/-- The constant `MAX_REALLOC_GAP`. -/
def MAX_REALLOC_GAP : Int := 4096

/-- The function `io_shrink_read_string`. -/
def io_shrink_read_string (str : RString) (n : Int) : RString :=
  if (rb_str_capacity str : Int) - n > MAX_REALLOC_GAP then rb_str_resize str n.toNat else str

/-- The function `io_set_read_length`. -/
def io_set_read_length (str : RString) (n : Int) (shrinkable : Bool) : RString :=
  if (str.len : Int) ≠ n then
    let s1 := rb_str_set_len str n.toNat
    if shrinkable then io_shrink_read_string s1 n else s1
  else str

/-- The effect of a successful `read` system call on the storage: `data` is stored from the
offset `buf` on. -/
def store (mem : List Byte) (buf : Nat) (data : List Byte) : List Byte :=
  mem.take buf ++ data ++ mem.drop (buf + data.length)

/-- The macro `RTEST`. -/
def RTEST : VALUE → Bool
  | .Qnil => false
  | .Qfalse => false
  | _ => true

/-! ## Read -/

/-- Local variables of `LibevBackend_read`. -/
structure ReadState where
  str : RString
  buf : Nat
  len : Int
  total : Int
  shrinkable : Bool
  watcher_fiber : VALUE
  susp : Nat
  deriving DecidableEq, Repr

/-- The loop `while (1)` of `LibevBackend_read`. A successful `read` returns the bytes it has
stored; their number is `n`. -/
def LibevBackend_read_while (fd : Int) (cur : Nat) (resume : Nat → VALUE)
    (dynamic_len read_to_eof : Bool) :
    List (Sys (List Byte)) → ReadState → LoopExit ReadState × List Event
  | [], _ => (.pending, [])
  | r :: rest, st =>
    match r with
    | .fail e =>
      if fatal_errno e then (.syserr e, [.sys_read fd st.buf (st.len - st.total) r])
      else
        let v := resume st.susp
        if TEST_EXCEPTION v then
          (.error v, [.sys_read fd st.buf (st.len - st.total) r, .wait_fd fd .EV_READ v])
        else
          let x := LibevBackend_read_while fd cur resume dynamic_len read_to_eof rest
            { st with watcher_fiber := stamp_fiber st.watcher_fiber cur, susp := st.susp + 1 }
          (x.1, .sys_read fd st.buf (st.len - st.total) r :: .wait_fd fd .EV_READ v :: x.2)
    | .ok data =>
      let n : Int := data.length
      let st1 : ReadState :=
        { st with str := { st.str with mem := store st.str.mem st.buf data },
                  susp := st.susp + 1 }
      let v := resume st.susp
      if TEST_EXCEPTION v then
        (.error v, [.sys_read fd st.buf (st.len - st.total) r, .snooze v])
      else if n = 0 then
        (.done st1, [.sys_read fd st.buf (st.len - st.total) r, .snooze v])
      else
        let total := st.total + n
        if !read_to_eof then
          (.done { st1 with total := total },
            [.sys_read fd st.buf (st.len - st.total) r, .snooze v])
        else if total = st.len then
          if !dynamic_len then
            (.done { st1 with total := total },
              [.sys_read fd st.buf (st.len - st.total) r, .snooze v])
          else
            let str2 := rb_str_modify_expand (rb_str_resize st1.str total.toNat) st.len.toNat
            let x := LibevBackend_read_while fd cur resume dynamic_len read_to_eof rest
              { st1 with str := str2, buf := total.toNat, shrinkable := false,
                         len := st.len + st.len, total := total }
            (x.1, .sys_read fd st.buf (st.len - st.total) r :: .snooze v :: x.2)
        else
          let x := LibevBackend_read_while fd cur resume dynamic_len read_to_eof rest
            { st1 with buf := st.buf + n.toNat, total := total }
          (x.1, .sys_read fd st.buf (st.len - st.total) r :: .snooze v :: x.2)

/-- The local variables of `LibevBackend_read` on entry to its loop, for the length `len`
(the number given, or 4096). -/
def read_init (str : Option (Nat × List Byte)) (len : Int) (alloc : Nat) : ReadState :=
  let sb := io_setstrbuf (str.map (fun p => ⟨p.1, p.2, p.2.length⟩)) len alloc
  ⟨sb.1, 0, len, 0, sb.2, .Qnil, 0⟩

/-- The function `LibevBackend_read`. The buffer argument is `none` for `Qnil`, else the
identity and the contents of the string; the length argument is `none` for `Qnil`, else the
number given (`NUM2INT`). A negative length is rejected by the host and is outside the
embedding. -/
def LibevBackend_read (fd : Int) (cur : Nat) (resume : Nat → VALUE) (alloc : Nat)
    (str : Option (Nat × List Byte)) (length : Option Int) (to_eof : VALUE)
    (sys : List (Sys (List Byte))) : Outcome × List Event :=
  let dynamic_len := length.isNone
  let len : Int := length.getD 4096
  if len < 0 then (.unmodelled, [])
  else
    let read_to_eof := RTEST to_eof
    let x := LibevBackend_read_while fd cur resume dynamic_len read_to_eof sys
      (read_init str len alloc)
    match x.1 with
    | .done st =>
      let s := io_set_read_length st.str st.total st.shrinkable
      if st.total = 0 then (.returned .Qnil, x.2)
      else (.returned (.str s.obj s.bytes), x.2)
    | .error v => (.raised v, x.2)
    | .syserr e => (.syserr e, x.2)
    | .unmodelled => (.unmodelled, x.2)
    | .pending => (.pending, x.2)

/-- The bytes supplied by the successful `read` system calls of a trace, in order. -/
def supplied_bytes : List Event → List Byte
  | [] => []
  | .sys_read _ _ _ (.ok data) :: t => data ++ supplied_bytes t
  | _ :: t => supplied_bytes t

/-- Invariant of a read trace for the length `len`, given the number `acc` of bytes supplied
before it: every `read` system call asks for `len - acc` bytes at the offset `acc`, and that
count is not negative. -/
def read_trace_inv (len : Int) : Nat → List Event → Prop
  | _, [] => True
  | acc, .sys_read _ buf count (.ok data) :: t =>
    ((buf : Int) = acc ∧ count = len - acc ∧ 0 ≤ count) ∧
      read_trace_inv len (acc + data.length) t
  | acc, .sys_read _ buf count (.fail _) :: t =>
    ((buf : Int) = acc ∧ count = len - acc ∧ 0 ≤ count) ∧ read_trace_inv len acc t
  | acc, _ :: t => read_trace_inv len acc t

/-- The data of the successful results of a script, in order. -/
def chunks : List (Sys (List Byte)) → List (List Byte)
  | [] => []
  | .ok data :: t => data :: chunks t
  | .fail _ :: t => chunks t

/-- Kernel behaviour assumed for read: a successful `read` returns at most the count asked. -/
def read_kernel_ok : List Event → Bool
  | [] => true
  | .sys_read _ _ count (.ok data) :: t =>
    decide ((data.length : Int) ≤ count) && read_kernel_ok t
  | _ :: t => read_kernel_ok t

/-- The identity of the buffer that read fills: the string given, or else the new object. -/
def str_obj (str : Option (Nat × List Byte)) (alloc : Nat) : Nat :=
  match str with
  | none => alloc
  | some p => p.1

/-! ## Read loop -/

/-- The fields of `struct ev_child` that the backend uses: the pid waited for, and the pid and
the raw status that the multiplexer reports. -/
structure ev_child where
  pid : Int
  rpid : Int
  rstatus : Int
  deriving DecidableEq, Repr

/-- The struct `libev_child`. -/
structure libev_child where
  child : ev_child
  fiber : VALUE
  deriving DecidableEq, Repr

/-- The function `LibevBackend_child_callback`. On an `int`, `>> 8` is the arithmetic shift. -/
def LibevBackend_child_callback (watcher : libev_child) : List Event :=
  let exit_status : Int := watcher.child.rstatus >>> (8 : Nat)
  let status := VALUE.ary2 (.int watcher.child.rpid) (.int exit_status)
  [Event.make_runnable watcher.fiber status]

/-- Modelled from the spec: the dispatch of a child event by the multiplexer (libev is not
among the sources). The multiplexer reports the pid `p` and the raw status `r` in the started
watcher and invokes its callback. -/
def child_event (p r : Int) (watcher : libev_child) : List Event :=
  LibevBackend_child_callback
    { watcher with child := { watcher.child with rpid := p, rstatus := r } }

/-- Modelled from the spec: `Fiber_make_runnable` and `Thread_switch_fiber` are declared in
polyphony.h and defined elsewhere. By section 4.1 of the spec the value that the switch returns
"is whatever schedule passed to wake the fiber": here the value of the first scheduling of the
fiber among the events that happened while it was suspended (`Qnil` when there is none). -/
def Thread_switch_fiber (fiber : VALUE) : List Event → VALUE
  | [] => VALUE.Qnil
  | .make_runnable f v :: t => if f = fiber then v else Thread_switch_fiber fiber t
  | _ :: t => Thread_switch_fiber fiber t

/-- The function `LibevBackend_waitpid`, called by the fiber `cur`; `happens watcher` are the
events that take place while the fiber is suspended in `libev_await`, given the watcher that
the function has started. -/
def LibevBackend_waitpid (backend : LibevBackend_t) (cur : Nat) (pid : Int)
    (happens : libev_child → List Event) : LibevBackend_t × Outcome :=
  let watcher : libev_child := ⟨⟨pid, 0, 0⟩, .fiber cur⟩
  let a := libev_await backend (Thread_switch_fiber (.fiber cur) (happens watcher))
  let switchpoint_result := a.2
  if TEST_EXCEPTION switchpoint_result then (a.1, .raised switchpoint_result)
  else (a.1, .returned switchpoint_result)

/-! ## Accept -/

/-- Local variables of `LibevBackend_accept` and `LibevBackend_accept_loop`: the fiber of the
watcher and the number of suspensions so far. -/
structure AcceptState where
  watcher_fiber : VALUE
  susp : Nat
  deriving DecidableEq, Repr

/-- The function `LibevBackend_accept` on the listening descriptor `lfd`, from the entry of
its loop on. Wrapping a descriptor in a new socket object is logged as
`Event.make_open_file`. -/
def LibevBackend_accept_while (lfd : Int) (cur : Nat) (resume : Nat → VALUE) :
    List (Sys Nat) → AcceptState → Outcome × List Event
  | [], _ => (.pending, [])
  | r :: rest, st =>
    match r with
    | .fail e =>
      if fatal_errno e then (.syserr e, [.sys_accept lfd r])
      else
        let v := resume st.susp
        if TEST_EXCEPTION v then (.raised v, [.sys_accept lfd r, .wait_fd lfd .EV_READ v])
        else
          let x := LibevBackend_accept_while lfd cur resume rest
            { st with watcher_fiber := stamp_fiber st.watcher_fiber cur, susp := st.susp + 1 }
          (x.1, .sys_accept lfd r :: .wait_fd lfd .EV_READ v :: x.2)
    | .ok fd =>
      let v := resume st.susp
      if TEST_EXCEPTION v then
        (.raised v, [.sys_accept lfd r, .snooze v, .sys_close fd])
      else
        (.returned (.socket fd), [.sys_accept lfd r, .snooze v, .make_open_file fd])

/-- The function `LibevBackend_accept`. -/
def LibevBackend_accept (lfd : Int) (cur : Nat) (resume : Nat → VALUE)
    (sys : List (Sys Nat)) : Outcome × List Event :=
  LibevBackend_accept_while lfd cur resume sys ⟨.Qnil, 0⟩

/-- The function `LibevBackend_accept_loop`, from the entry of its loop on. The consumer block
is taken to return. -/
def LibevBackend_accept_loop_while (lfd : Int) (cur : Nat) (resume : Nat → VALUE) :
    List (Sys Nat) → AcceptState → Outcome × List Event
  | [], _ => (.pending, [])
  | r :: rest, st =>
    match r with
    | .fail e =>
      if fatal_errno e then (.syserr e, [.sys_accept lfd r])
      else
        let v := resume st.susp
        if TEST_EXCEPTION v then (.raised v, [.sys_accept lfd r, .wait_fd lfd .EV_READ v])
        else
          let x := LibevBackend_accept_loop_while lfd cur resume rest
            { st with watcher_fiber := stamp_fiber st.watcher_fiber cur, susp := st.susp + 1 }
          (x.1, .sys_accept lfd r :: .wait_fd lfd .EV_READ v :: x.2)
    | .ok fd =>
      let v := resume st.susp
      if TEST_EXCEPTION v then
        (.raised v, [.sys_accept lfd r, .snooze v, .sys_close fd])
      else
        let x := LibevBackend_accept_loop_while lfd cur resume rest { st with susp := st.susp + 1 }
        (x.1, .sys_accept lfd r :: .snooze v :: .make_open_file fd ::
          .rb_yield (.socket fd) :: x.2)

/-- The function `LibevBackend_accept_loop`. -/
def LibevBackend_accept_loop (lfd : Int) (cur : Nat) (resume : Nat → VALUE)
    (sys : List (Sys Nat)) : Outcome × List Event :=
  LibevBackend_accept_loop_while lfd cur resume sys ⟨.Qnil, 0⟩

/-- The descriptors obtained from successful `accept` system calls, in order. -/
def accepted_fds : List Event → List Int
  | [] => []
  | .sys_accept _ (.ok fd) :: t => (fd : Int) :: accepted_fds t
  | _ :: t => accepted_fds t

/-- The descriptors closed, in order. -/
def closed_fds : List Event → List Int
  | [] => []
  | .sys_close fd :: t => fd :: closed_fds t
  | _ :: t => closed_fds t

/-- The descriptors wrapped in a new socket object, in order. -/
def wrapped_fds : List Event → List Int
  | [] => []
  | .make_open_file fd :: t => fd :: wrapped_fds t
  | _ :: t => wrapped_fds t

/-- The descriptors handed to the caller as sockets: those yielded to the consumer block, in
order, followed by the one returned, if any. -/
def handed_fds (out : Outcome) : List Event → List Int
  | [] => (match out with
    | .returned (.socket fd) => [fd]
    | _ => [])
  | .rb_yield (.socket fd) :: t => fd :: handed_fds out t
  | _ :: t => handed_fds out t

/-- What must follow a successful `accept` that gave `fd`, in `LibevBackend_accept_loop`
(`loop = true`) or in `LibevBackend_accept` (`loop = false`): the snooze and then, on an
exception-like resume value, the closing of `fd` and nothing else, the exception being raised;
otherwise the wrapping of `fd` in a socket that is yielded, respectively returned. -/
def after_accept (loop : Bool) (out : Outcome) (fd : Nat) (post : List Event) : Prop :=
  ∃ v rest, post = Event.snooze v :: rest ∧
    (TEST_EXCEPTION v = true → rest = [Event.sys_close fd] ∧ out = Outcome.raised v) ∧
    (TEST_EXCEPTION v = false →
      if loop then ∃ more, rest = Event.make_open_file fd :: Event.rb_yield (.socket fd) :: more
      else rest = [Event.make_open_file fd] ∧ out = Outcome.returned (.socket fd))

/-- Every successful `accept` of the trace is followed as `after_accept` says. -/
def accept_discipline (loop : Bool) (out : Outcome) : List Event → Prop
  | [] => True
  | .sys_accept _ (.ok fd) :: t => after_accept loop out fd t ∧ accept_discipline loop out t
  | _ :: t => accept_discipline loop out t

/-! ## Counting suspensions and releases -/

/-- The number of snoozes in a trace. -/
def count_snoozes : List Event → Nat
  | [] => 0
  | .snooze _ :: t => count_snoozes t + 1
  | _ :: t => count_snoozes t

/-- The number of readiness waits in a trace. -/
def count_waits : List Event → Nat
  | [] => 0
  | .wait_fd _ _ _ :: t => count_waits t + 1
  | _ :: t => count_waits t

/-- The number of times the iovec array is allocated in a trace. -/
def count_mallocs : List Event → Nat
  | [] => 0
  | .malloc_iov _ :: t => count_mallocs t + 1
  | _ :: t => count_mallocs t

/-- The number of times the iovec array is released in a trace. -/
def count_frees : List Event → Nat
  | [] => 0
  | .free_iov :: t => count_frees t + 1
  | _ :: t => count_frees t

/-! ## The write entry point -/

/-- The exception classes that the backend names in `rb_raise`, and the one that its comment
asks for. -/
inductive ErrorClass where
  | rb_eRuntimeError
  | rb_eArgError
  deriving DecidableEq, Repr

/-- How a call of the write entry point goes: it raises through `rb_raise` before any other
action, or it runs write or writev, with their outcome and trace. -/
inductive EntryResult where
  | rb_raise (cls : ErrorClass)
  | ran (out : Outcome) (trace : List Event)
  deriving DecidableEq, Repr

/-- The descriptor of an io object (`GetOpenFile`, `fptr->fd`); for another value the host
raises, which is outside the embedding. -/
def handle_fd : VALUE → Option Int
  | .handle fd => some fd
  | .socket fd => some fd
  | _ => none

/-- The bytes of a string argument (`StringValuePtr`, `RSTRING_LEN`); for another value the
host converts or raises, which is outside the embedding. -/
def string_bytes : VALUE → Option (List Byte)
  | .str _ bytes => some bytes
  | _ => none

/-- The bytes of the string arguments `argv[0 .. argc)`, in order. -/
def strings_bytes : List VALUE → Option (List (List Byte))
  | [] => some []
  | v :: rest =>
    match string_bytes v, strings_bytes rest with
    | some b, some bs => some (b :: bs)
    | _, _ => none

/-- The call `LibevBackend_write(self, io, str)` on host values. -/
def LibevBackend_write_call (cur : Nat) (resume : Nat → VALUE) (io_arg str : VALUE)
    (sys : List (Sys Nat)) : Outcome × List Event :=
  match handle_fd io_arg, string_bytes str with
  | some fd, some bytes => LibevBackend_write fd cur resume bytes sys
  | _, _ => (.unmodelled, [])

/-- The call `LibevBackend_writev(self, io, argc, argv)` on host values. -/
def LibevBackend_writev_call (cur : Nat) (resume : Nat → VALUE) (io_arg : VALUE)
    (argv : List VALUE) (sys : List (Sys Nat)) : Outcome × List Event :=
  match handle_fd io_arg, strings_bytes argv with
  | some fd, some bufs => LibevBackend_writev fd cur resume bufs sys
  | _, _ => (.unmodelled, [])

/-- The function `LibevBackend_write_m` for the arguments `argv` (`argc` is their number):
`argv[0]` is the io, `argv + 1` are the buffers. -/
def LibevBackend_write_m (cur : Nat) (resume : Nat → VALUE) (argv : List VALUE)
    (sys : List (Sys Nat)) : EntryResult :=
  let argc := argv.length
  if argc < 2 then .rb_raise .rb_eRuntimeError
  else if argc = 2 then
    let r := LibevBackend_write_call cur resume (argv.getD 0 .Qnil) (argv.getD 1 .Qnil) sys
    .ran r.1 r.2
  else
    let r := LibevBackend_writev_call cur resume (argv.getD 0 .Qnil) (argv.drop 1) sys
    .ran r.1 r.2

/-! ## What follows a successful read -/

/-- The outcome of `LibevBackend_read` for each way of leaving its loop. -/
def read_outcome : LoopExit ReadState → Outcome
  | .done st =>
    if st.total = 0 then .returned .Qnil
    else .returned (.str (io_set_read_length st.str st.total st.shrinkable).obj
      (io_set_read_length st.str st.total st.shrinkable).bytes)
  | .error v => .raised v
  | .syserr e => .syserr e
  | .unmodelled => .unmodelled
  | .pending => .pending

/-- The call goes on with another `read` system call on `fd`, at the offset `buf` and for
`count` bytes, unless the script of the kernel ends there. -/
def next_read (fd : Int) (buf : Nat) (count : Int) (out : Outcome) (rest : List Event) : Prop :=
  (rest = [] ∧ out = Outcome.pending) ∨ ∃ r more, rest = Event.sys_read fd buf count r :: more

/-- What follows, in `LibevBackend_read`, a `read` system call at the offset `buf` that asked
for `count = len - total` bytes and stored `data`: the snooze; then, unless the snooze is
cancelled, the return at the end of file; the return when not reading to the end of file; the
next `read` past the bytes stored when the buffer is not full; and, when it is full, the
return (explicit length) or the next `read` for as many bytes as are stored so far (dynamic
mode: `len` has doubled). -/
def after_read (fd : Int) (eof dyn : Bool) (out : Outcome) (buf : Nat) (count : Int)
    (data : List Byte) (post : List Event) : Prop :=
  ∃ v rest, post = Event.snooze v :: rest ∧
    (TEST_EXCEPTION v = true → rest = [] ∧ out = Outcome.raised v) ∧
    (TEST_EXCEPTION v = false →
      (data = [] → rest = [] ∧ ∃ w, out = Outcome.returned w) ∧
      (data ≠ [] → eof = false → rest = [] ∧ ∃ w, out = Outcome.returned w) ∧
      (data ≠ [] → eof = true → (data.length : Int) < count →
        next_read fd (buf + data.length) (count - data.length) out rest) ∧
      (data ≠ [] → eof = true → (data.length : Int) = count → dyn = false →
        rest = [] ∧ ∃ w, out = Outcome.returned w) ∧
      (data ≠ [] → eof = true → (data.length : Int) = count → dyn = true →
        next_read fd (buf + data.length) ((buf + data.length : Nat) : Int) out rest))

/-- Every successful `read` of the trace is followed as `after_read` says. -/
def read_discipline (fd : Int) (eof dyn : Bool) (out : Outcome) : List Event → Prop
  | [] => True
  | .sys_read _ buf count (.ok data) :: t =>
    after_read fd eof dyn out buf count data t ∧ read_discipline fd eof dyn out t
  | _ :: t => read_discipline fd eof dyn out t

/-! ## Theorems: reactor core -/

/-- A value inside the range of `int` is stored as it is. -/
theorem to_int_eq (x : Int) (h1 : INT_MIN ≤ x) (h2 : x ≤ INT_MAX) : to_int x = x := by
  unfold INT_MIN at h1
  unfold INT_MAX at h2
  unfold to_int
  omega

/-- What an `int` holds lies inside the range of `int`. -/
theorem to_int_range (x : Int) : INT_MIN ≤ to_int x ∧ to_int x ≤ INT_MAX := by
  unfold INT_MIN INT_MAX to_int
  omega

/-- A nowait poll returns early exactly when the counter as stored by the increment is below
the threshold; otherwise it resets the counter and runs the multiplexer once. -/
theorem poll_nowait_cases (ev_run : EvLoop → EvRunMode → EvLoop) (tr : Bool)
    (b : LibevBackend_t) (fiber : VALUE) (queue : List VALUE) :
    (to_int (b.run_no_wait_count + 1) < max (Queue_len queue) 10 →
      LibevBackend_poll ev_run tr b .Qtrue fiber queue
        = ({ b with run_no_wait_count := to_int (b.run_no_wait_count + 1) }, [])) ∧
    (¬ to_int (b.run_no_wait_count + 1) < max (Queue_len queue) 10 →
      (LibevBackend_poll ev_run tr b .Qtrue fiber queue).1.run_no_wait_count = 0 ∧
      ∃ e ∈ (LibevBackend_poll ev_run tr b .Qtrue fiber queue).2, is_ev_run e = true) := by
  constructor
  · intro h
    have h' : to_int (b.run_no_wait_count + 1) < Queue_len queue
        ∨ to_int (b.run_no_wait_count + 1) < 10 := by
      rcases lt_max_iff.mp h with h1 | h1
      · exact Or.inl h1
      · exact Or.inr h1
    simp [LibevBackend_poll, h']
  · intro h
    have h1 : ¬ to_int (b.run_no_wait_count + 1) < Queue_len queue :=
      fun hh => h (lt_max_iff.mpr (Or.inl hh))
    have h2 : ¬ to_int (b.run_no_wait_count + 1) < 10 :=
      fun hh => h (lt_max_iff.mpr (Or.inr hh))
    refine ⟨by simp [LibevBackend_poll, h1, h2],
      Event.ev_run .EVRUN_NOWAIT 1 b.ref_count 0, ?_, rfl⟩
    simp [LibevBackend_poll, h1, h2]

/-- C1 (as amended): when poll is called with nowait = true, the value of run_no_wait_count on
entry is a C int below INT_MAX (so that the increment does not overflow) and that value plus
one is less than max(runnable_count, 10), poll increments run_no_wait_count by exactly one and
returns immediately without running the multiplexer (its trace is empty). -/
theorem poll_nowait_early_return (ev_run : EvLoop → EvRunMode → EvLoop) (tr : Bool)
    (b : LibevBackend_t) (fiber : VALUE) (queue : List VALUE)
    (hmin : INT_MIN ≤ b.run_no_wait_count) (hmax : b.run_no_wait_count < INT_MAX)
    (h : b.run_no_wait_count + 1 < max (Queue_len queue) 10) :
    LibevBackend_poll ev_run tr b .Qtrue fiber queue
      = ({ b with run_no_wait_count := b.run_no_wait_count + 1 }, []) := by
  have hw : to_int (b.run_no_wait_count + 1) = b.run_no_wait_count + 1 :=
    to_int_eq _ (by omega) (by omega)
  have hc := (poll_nowait_cases ev_run tr b fiber queue).1 (by rw [hw]; exact h)
  rw [hw] at hc
  exact hc

/-- Witness of C1 (as amended): entry counter 3, empty run queue. -/
theorem poll_nowait_early_return_witness :
    LibevBackend_poll (fun l _ => l) false ⟨⟨true, 1, 0⟩, 0, 0, 3⟩ .Qtrue (.fiber 1) []
      = (⟨⟨true, 1, 0⟩, 0, 0, 4⟩, []) :=
  poll_nowait_early_return (fun l _ => l) false ⟨⟨true, 1, 0⟩, 0, 0, 3⟩ (.fiber 1) []
    (by decide) (by decide) (by decide)

/-- C1 (counterexample): with run_no_wait_count = 9 on entry and an empty run queue the entry
value is below max(runnable_count, 10) = 10, yet poll does not return early: it resets the
counter to zero and runs the multiplexer in nowait mode. -/
theorem poll_nowait_boundary_counterexample :
    (9 : Int) < max (Queue_len []) 10 ∧
    LibevBackend_poll (fun l _ => l) false ⟨⟨true, 1, 0⟩, 0, 0, 9⟩ .Qtrue (.fiber 1) []
      = (⟨⟨true, 1, 0⟩, 0, 0, 0⟩, [Event.ev_run .EVRUN_NOWAIT 1 0 0]) := by
  decide

/-- The increment at the top of the range of `int`: with run_no_wait_count = INT_MAX on entry
the counter stored is INT_MIN, which is below every threshold, and poll returns early. -/
theorem poll_nowait_overflow_example :
    LibevBackend_poll (fun l _ => l) false ⟨⟨true, 1, 0⟩, 0, 0, 2147483647⟩ .Qtrue (.fiber 1) []
      = (⟨⟨true, 1, 0⟩, 0, 0, -2147483648⟩, []) := by
  decide

/-- Invariant behind C2: if the counter is a non-negative value below the bound M, M is at most
INT_MAX, every queue is at most M long and the counter plus the number n of calls reaches M,
one of the first n calls runs the multiplexer. -/
theorem poll_nowait_seq_enters (ev_run : EvLoop → EvRunMode → EvLoop) (tr : Bool)
    (fiber : VALUE) (M : Int) (hM : 10 ≤ M) (hMmax : M ≤ INT_MAX) :
    ∀ (qs : List (List VALUE)) (b : LibevBackend_t) (n : Nat),
      (∀ q ∈ qs, Queue_len q ≤ M) → 0 ≤ b.run_no_wait_count → b.run_no_wait_count < M →
      M ≤ b.run_no_wait_count + n → n ≤ qs.length →
      ∃ t ∈ (poll_nowait_seq ev_run tr fiber b qs).2.take n, ∃ e ∈ t, is_ev_run e = true := by
  intro qs
  induction qs with
  | nil =>
    intro b n _ _ hlt hge hn
    simp at hn
    subst hn
    simp at hge
    omega
  | cons q rest ih =>
    intro b n hq h0 hlt hge hn
    cases n with
    | zero => simp at hge; omega
    | succ m =>
      have hqM : Queue_len q ≤ M := hq q (List.mem_cons_self _ _)
      have hw : to_int (b.run_no_wait_count + 1) = b.run_no_wait_count + 1 :=
        to_int_eq _ (by unfold INT_MIN; omega) (by omega)
      by_cases hc : b.run_no_wait_count + 1 < max (Queue_len q) 10
      · have hearly := (poll_nowait_cases ev_run tr b fiber q).1 (by rw [hw]; exact hc)
        rw [hw] at hearly
        have hlt' : b.run_no_wait_count + 1 < M := lt_of_lt_of_le hc (max_le hqM hM)
        have hrec := ih { b with run_no_wait_count := b.run_no_wait_count + 1 } m
          (fun q' hq' => hq q' (List.mem_cons_of_mem _ hq')) (by simp only; omega) hlt'
          (by simp only; push_cast at hge; omega) (by simpa using hn)
        obtain ⟨t, ht, e, he, hrun⟩ := hrec
        refine ⟨t, ?_, e, he, hrun⟩
        simp only [poll_nowait_seq, hearly, List.take_succ_cons]
        exact List.mem_cons_of_mem _ ht
      · obtain ⟨_, e, he, hrun⟩ :=
          (poll_nowait_cases ev_run tr b fiber q).2 (by rw [hw]; exact hc)
        refine ⟨_, ?_, e, he, hrun⟩
        simp only [poll_nowait_seq, List.take_succ_cons]
        exact List.mem_cons_self _ _

/-- While every run queue holds 2^31 fibers or more, no nowait poll runs the multiplexer: the
counter is an `int` and stays below the length of the queue, whatever its value on entry. -/
theorem poll_nowait_seq_never_enters (ev_run : EvLoop → EvRunMode → EvLoop) (tr : Bool)
    (fiber : VALUE) :
    ∀ (qs : List (List VALUE)) (b : LibevBackend_t),
      (∀ q ∈ qs, (2147483648 : Int) ≤ Queue_len q) →
      ∀ t ∈ (poll_nowait_seq ev_run tr fiber b qs).2, t = [] := by
  intro qs
  induction qs with
  | nil =>
    intro b _ t ht
    simp [poll_nowait_seq] at ht
  | cons q rest ih =>
    intro b hq t ht
    have hlen : (2147483648 : Int) ≤ Queue_len q := hq q (List.mem_cons_self _ _)
    have hr := (to_int_range (b.run_no_wait_count + 1)).2
    unfold INT_MAX at hr
    have hearly := (poll_nowait_cases ev_run tr b fiber q).1
      (lt_max_iff.mpr (Or.inl (by omega)))
    simp only [poll_nowait_seq, hearly, List.mem_cons] at ht
    rcases ht with ht | ht
    · exact ht
    · exact ih _ (fun q' hq' => hq q' (List.mem_cons_of_mem _ hq')) t ht

/-- C2 (as amended): for every bound L of at most INT_MAX = 2147483647 and every reactor state
with run_no_wait_count = 0, in any sequence of consecutive poll(nowait = true) calls during
each of which the run queue length is at most L, one of the first max(L, 10) calls runs the
multiplexer. -/
theorem poll_nowait_enters_by_threshold (ev_run : EvLoop → EvRunMode → EvLoop) (tr : Bool)
    (fiber : VALUE) (L : Nat) (b : LibevBackend_t) (qs : List (List VALUE))
    (hL : L ≤ 2147483647)
    (h0 : b.run_no_wait_count = 0) (hq : ∀ q ∈ qs, q.length ≤ L)
    (hn : max L 10 ≤ qs.length) :
    ∃ t ∈ (poll_nowait_seq ev_run tr fiber b qs).2.take (max L 10),
      ∃ e ∈ t, is_ev_run e = true := by
  have hmax : max L 10 ≤ 2147483647 := max_le hL (by decide)
  apply poll_nowait_seq_enters ev_run tr fiber ((max L 10 : Nat) : Int) (by simp)
    (by unfold INT_MAX; exact_mod_cast hmax) qs b (max L 10)
  · intro q hq'
    have := hq q hq'
    simp only [Queue_len]
    exact_mod_cast le_trans this (le_max_left L 10)
  · rw [h0]
  · rw [h0]; exact_mod_cast (lt_of_lt_of_le (by decide : 0 < 10) (le_max_right L 10))
  · rw [h0]; simp
  · exact hn

/-- Witness of C2 (as amended): L = 0, ten polls with an empty run queue; the tenth runs the
multiplexer. -/
theorem poll_nowait_enters_by_threshold_witness :
    ∃ t ∈ (poll_nowait_seq (fun l _ => l) false (.fiber 1) ⟨⟨true, 1, 0⟩, 0, 0, 0⟩
        (List.replicate 10 [])).2.take (max 0 10),
      ∃ e ∈ t, is_ev_run e = true :=
  poll_nowait_enters_by_threshold (fun l _ => l) false (.fiber 1) 0 ⟨⟨true, 1, 0⟩, 0, 0, 0⟩
    (List.replicate 10 []) (by decide) rfl (by decide) (by decide)

/-- C2 (counterexample): L = 2^31, run_no_wait_count = 0, and 2^31 consecutive nowait polls,
each with a run queue of 2^31 fibers. Every queue is at most L long and the sequence has
max(L, 10) calls, yet every one of these calls returns without running the multiplexer (its
trace is empty): the counter is an `int` and never reaches the length of the queue. -/
theorem poll_nowait_never_enters_counterexample :
    (⟨⟨true, 1, 0⟩, 0, 0, 0⟩ : LibevBackend_t).run_no_wait_count = 0 ∧
    (∀ q ∈ List.replicate 2147483648 (List.replicate 2147483648 (VALUE.fiber 0)),
      q.length ≤ 2147483648) ∧
    max 2147483648 10
      ≤ (List.replicate 2147483648 (List.replicate 2147483648 (VALUE.fiber 0))).length ∧
    (∀ t ∈ (poll_nowait_seq (fun l _ => l) false (.fiber 1) ⟨⟨true, 1, 0⟩, 0, 0, 0⟩
        (List.replicate 2147483648 (List.replicate 2147483648 (VALUE.fiber 0)))).2.take
          (max 2147483648 10),
      t = []) := by
  have hlen : ∀ q ∈ List.replicate 2147483648 (List.replicate 2147483648 (VALUE.fiber 0)),
      q.length = 2147483648 := by
    intro q hq
    rw [List.eq_of_mem_replicate hq, List.length_replicate]
  refine ⟨rfl, fun q hq => le_of_eq (hlen q hq), ?_, ?_⟩
  · rw [List.length_replicate]
    decide
  · intro t ht
    refine poll_nowait_seq_never_enters _ _ _ _ _ ?_ t (List.mem_of_mem_take ht)
    intro q hq
    unfold Queue_len
    rw [hlen q hq]
    decide

/-! ## Theorems: write -/

theorem store_length (mem : List Byte) (buf : Nat) (data : List Byte)
    (h : buf + data.length ≤ mem.length) : (store mem buf data).length = mem.length := by
  simp only [store, List.length_append, List.length_take, List.length_drop]
  omega

theorem store_take (mem : List Byte) (buf : Nat) (data : List Byte)
    (h : buf + data.length ≤ mem.length) :
    (store mem buf data).take (buf + data.length) = mem.take buf ++ data := by
  have hl : (mem.take buf ++ data).length = buf + data.length := by
    simp only [List.length_append, List.length_take]
    omega
  unfold store
  rw [← hl, List.take_left']
  rfl

theorem io_set_read_length_bytes (str : RString) (n : Nat) (sh : Bool)
    (h : n ≤ str.mem.length) :
    (io_set_read_length str n sh).bytes = str.mem.take n ∧
      (io_set_read_length str n sh).obj = str.obj := by
  unfold io_set_read_length io_shrink_read_string
  by_cases h1 : (str.len : Int) ≠ (n : Int)
  · rw [if_pos h1]
    cases sh with
    | false => simp [rb_str_set_len, RString.bytes]
    | true =>
      simp only [if_true]
      split_ifs with h2
      · simp only [rb_str_resize, rb_str_set_len, RString.bytes, Int.toNat_ofNat, and_true]
        rw [List.take_take, Nat.min_self, List.take_append_of_le_length h]
      · simp [rb_str_set_len, RString.bytes]
  · rw [if_neg h1]
    have : str.len = n := by
      have := not_not.mp h1
      exact_mod_cast this
    simp [RString.bytes, this]

theorem read_while_head (fd : Int) (cur : Nat) (resume : Nat → VALUE) (dyn eof : Bool)
    (r : Sys (List Byte)) (rest : List (Sys (List Byte))) (st : ReadState) :
    ∃ t, (LibevBackend_read_while fd cur resume dyn eof (r :: rest) st).2
      = Event.sys_read fd st.buf (st.len - st.total) r :: t := by
  unfold LibevBackend_read_while
  cases r with
  | fail e => simp only; split_ifs <;> exact ⟨_, rfl⟩
  | ok data => simp only; split_ifs <;> exact ⟨_, rfl⟩

/-- Invariant of the read loop: the offset of the buffer pointer equals `total`, `total` does
not exceed `len`, `len` does not exceed the capacity, and the first `total` bytes of the
storage are the bytes supplied so far. -/
theorem read_while_inv (fd : Int) (cur : Nat) (resume : Nat → VALUE) (dyn eof : Bool) :
    ∀ (sys : List (Sys (List Byte))) (st : ReadState) (acc : List Byte),
      (st.buf : Int) = st.total → st.buf = acc.length → st.total ≤ st.len →
      st.len ≤ (st.str.mem.length : Int) → st.str.mem.take st.buf = acc →
      read_kernel_ok (LibevBackend_read_while fd cur resume dyn eof sys st).2 = true →
      (dyn = false → read_trace_inv st.len acc.length (LibevBackend_read_while fd cur resume dyn eof sys st).2) ∧
      ∀ st', (LibevBackend_read_while fd cur resume dyn eof sys st).1 = .done st' →
        st'.total = ((acc ++ supplied_bytes (LibevBackend_read_while fd cur resume dyn eof sys st).2).length : Int) ∧
        st'.str.mem.take (acc ++ supplied_bytes (LibevBackend_read_while fd cur resume dyn eof sys st).2).length
          = acc ++ supplied_bytes (LibevBackend_read_while fd cur resume dyn eof sys st).2 ∧
        (acc ++ supplied_bytes (LibevBackend_read_while fd cur resume dyn eof sys st).2).length
          ≤ st'.str.mem.length ∧
        st'.str.obj = st.str.obj ∧
        (dyn = false → st'.total ≤ st.len) := by
  intro sys
  induction sys with
  | nil =>
    intro st acc _ _ _ _ _ _
    simp [LibevBackend_read_while, read_trace_inv]
  | cons r rest ih =>
    intro st acc hbt hba htl hcap hmem hk
    have hcount : 0 ≤ st.len - st.total := by omega
    have hbufacc : (st.buf : Int) = (acc.length : Int) := by exact_mod_cast hba
    have hlenacc : st.len - st.total = st.len - (acc.length : Int) := by omega
    have hacl : (acc.length : Int) ≤ st.len := by omega
    cases r with
    | fail e =>
      by_cases hf : fatal_errno e = true
      · simp [LibevBackend_read_while, hf, read_trace_inv, hbufacc, hlenacc, hcount, hacl]
      · by_cases hx : TEST_EXCEPTION (resume st.susp) = true
        · simp [LibevBackend_read_while, hf, hx, read_trace_inv, hbufacc, hlenacc, hcount, hacl]
        · simp only [LibevBackend_read_while, hf, hx, if_false, Bool.false_eq_true] at hk ⊢
          simp only [read_kernel_ok, read_trace_inv, supplied_bytes] at hk ⊢
          have hrec := ih { st with watcher_fiber := stamp_fiber st.watcher_fiber cur,
                                    susp := st.susp + 1 } acc hbt hba htl hcap hmem hk
          refine ⟨fun hd => ⟨⟨hbufacc, hlenacc, hcount⟩, hrec.1 hd⟩, hrec.2⟩
    | ok data =>
      obtain ⟨t, ht⟩ := read_while_head fd cur resume dyn eof (.ok data) rest st
      have hdata : (data.length : Int) ≤ st.len - st.total := by
        rw [ht] at hk
        simp only [read_kernel_ok, Bool.and_eq_true, decide_eq_true_eq] at hk
        exact hk.1
      have hfit : st.buf + data.length ≤ st.str.mem.length := by omega
      have hsl := store_length st.str.mem st.buf data hfit
      have hst := store_take st.str.mem st.buf data hfit
      rw [hmem] at hst
      have hal : (acc ++ data).length = st.buf + data.length := by
        rw [List.length_append, hba]
      have hev : ((st.buf : Int) = (acc.length : Int) ∧
          st.len - st.total = st.len - (acc.length : Int) ∧ 0 ≤ st.len - st.total) :=
        ⟨hbufacc, hlenacc, hcount⟩
      by_cases hx : TEST_EXCEPTION (resume st.susp) = true
      · simp [LibevBackend_read_while, hx, read_trace_inv, hbufacc, hlenacc, hcount, hacl]
      · by_cases hn : (data.length : Int) = 0
        · have hd0 : data = [] := by
            have : data.length = 0 := by exact_mod_cast hn
            exact List.length_eq_zero.mp this
          subst hd0
          simp only [LibevBackend_read_while, hx, hn, if_true, if_false, Bool.false_eq_true]
          simp only [read_trace_inv, supplied_bytes, List.append_nil, LoopExit.done.injEq]
          refine ⟨fun _ => ⟨hev, trivial⟩, ?_⟩
          intro st' hst'
          subst hst'
          simp only [List.append_nil, List.length_nil, Nat.add_zero] at hst hsl
          refine ⟨by simp only; omega, ?_, ?_, rfl, fun _ => htl⟩
          · rw [← hba]; exact hst
          · simp only; rw [hsl]; omega
        · by_cases he : eof = false
          · subst he
            simp only [LibevBackend_read_while, hx, hn, if_true, if_false, Bool.false_eq_true, Bool.not_false]
            simp only [read_trace_inv, supplied_bytes, List.append_nil, LoopExit.done.injEq]
            refine ⟨fun _ => ⟨hev, trivial⟩, ?_⟩
            intro st' hst'
            subst hst'
            refine ⟨by simp only; rw [hal]; push_cast; omega, ?_, ?_, rfl, fun _ => by
              simp only; omega⟩
            · simp only; rw [hal]; exact hst
            · simp only; rw [hsl, hal]; exact hfit
          · have he' : eof = true := by cases eof <;> simp_all
            subst he'
            by_cases hfull : st.total + (data.length : Int) = st.len
            · by_cases hd : dyn = false
              · subst hd
                simp only [LibevBackend_read_while, hx, hn, hfull, if_true, if_false, Bool.false_eq_true,
                  Bool.not_false, Bool.not_true]
                simp only [read_trace_inv, supplied_bytes, List.append_nil, LoopExit.done.injEq]
                refine ⟨fun _ => ⟨hev, trivial⟩, ?_⟩
                intro st' hst'
                subst hst'
                refine ⟨by simp only; rw [hal]; push_cast; omega, ?_, ?_, rfl, fun _ => by
                  simp only; omega⟩
                · simp only; rw [hal]; exact hst
                · simp only; rw [hsl, hal]; exact hfit
              · have hd' : dyn = true := by cases dyn <;> simp_all
                subst hd'
                simp only [LibevBackend_read_while, hx, hn, hfull, if_true, if_false, Bool.false_eq_true,
                  Bool.not_true] at hk ⊢
                simp only [read_kernel_ok, read_trace_inv, supplied_bytes, Bool.and_eq_true,
                  decide_eq_true_eq] at hk ⊢
                have hT : st.len.toNat = st.buf + data.length := by omega
                have hrec := ih
                  { st with
                    str := rb_str_modify_expand
                      (rb_str_resize { st.str with mem := store st.str.mem st.buf data }
                        st.len.toNat) st.len.toNat,
                    susp := st.susp + 1, buf := st.len.toNat, shrinkable := false,
                    len := st.len + st.len, total := st.len }
                  (acc ++ data)
                  (by simp only; omega) (by simp only; omega) (by simp only; omega)
                  (by
                    simp only [rb_str_modify_expand, rb_str_resize, List.length_append,
                      List.length_take, List.length_replicate, hsl]
                    omega)
                  (by
                    simp only [rb_str_modify_expand, rb_str_resize, hsl]
                    rw [List.take_append_of_le_length (by
                      simp only [List.length_take, List.length_append, List.length_replicate, hsl]
                      omega)]
                    rw [List.take_take, Nat.min_self,
                      List.take_append_of_le_length (by rw [hsl]; omega), hT]
                    exact hst)
                  hk.2
                refine ⟨fun hd => by simp at hd, ?_⟩
                intro st' hst'
                have := hrec.2 st' hst'
                simp only [List.append_assoc] at this ⊢
                exact ⟨this.1, this.2.1, this.2.2.1, this.2.2.2.1, fun hd => by simp at hd⟩
            · simp only [LibevBackend_read_while, hx, hn, hfull, if_true, if_false, Bool.false_eq_true,
                Bool.not_true] at hk ⊢
              simp only [read_kernel_ok, read_trace_inv, supplied_bytes, Bool.and_eq_true,
                decide_eq_true_eq] at hk ⊢
              have hrec := ih
                { st with str := { st.str with mem := store st.str.mem st.buf data },
                          susp := st.susp + 1, buf := st.buf + (data.length : Int).toNat,
                          total := st.total + data.length }
                (acc ++ data)
                (by simp only [Int.toNat_ofNat]; push_cast; omega)
                (by simp only [Int.toNat_ofNat]; omega)
                (by simp only; omega)
                (by simp only; rw [hsl]; exact hcap)
                (by simp only [Int.toNat_ofNat]; exact hst)
                hk.2
              simp only [List.append_assoc] at hrec ⊢
              refine ⟨fun hd => ⟨hev, ?_⟩, hrec.2⟩
              have := hrec.1 hd
              simp only [List.length_append] at this
              exact this

theorem supplied_bytes_append (a b : List Event) :
    supplied_bytes (a ++ b) = supplied_bytes a ++ supplied_bytes b := by
  induction a with
  | nil => rfl
  | cons e t ih =>
    cases e with
    | sys_read fd buf count ret => cases ret <;> simp [supplied_bytes, ih]
    | _ => simp [supplied_bytes, ih]

theorem read_trace_inv_split (len : Int) (fd : Int) (buf : Nat) (count : Int)
    (r : Sys (List Byte)) (post : List Event) :
    ∀ (pre : List Event) (acc : Nat),
      read_trace_inv len acc (pre ++ Event.sys_read fd buf count r :: post) →
      (buf : Int) = ((acc + (supplied_bytes pre).length : Nat) : Int) ∧
      count = len - ((acc + (supplied_bytes pre).length : Nat) : Int) ∧ 0 ≤ count := by
  intro pre
  induction pre with
  | nil =>
    intro acc h
    cases r <;> simpa [read_trace_inv, supplied_bytes] using h.1
  | cons e t ih =>
    intro acc h
    cases e with
    | sys_read fd' buf' count' ret =>
      cases ret with
      | fail e' =>
        simp only [List.cons_append, read_trace_inv, supplied_bytes] at h ⊢
        exact ih acc h.2
      | ok data =>
        simp only [List.cons_append, read_trace_inv, supplied_bytes, List.length_append] at h ⊢
        have := ih (acc + data.length) h.2
        rw [Nat.add_assoc] at this
        exact this
    | _ =>
      simp only [List.cons_append, read_trace_inv, supplied_bytes] at h ⊢
      exact ih acc h

theorem read_init_spec (str : Option (Nat × List Byte)) (len : Int) (alloc : Nat)
    (hlen : 0 ≤ len) :
    (read_init str len alloc).buf = 0 ∧ (read_init str len alloc).total = 0 ∧
    (read_init str len alloc).len = len ∧
    len ≤ ((read_init str len alloc).str.mem.length : Int) ∧
    (read_init str len alloc).str.obj = str_obj str alloc := by
  cases str with
  | none =>
    refine ⟨rfl, rfl, rfl, ?_, rfl⟩
    simp only [read_init, io_setstrbuf, Option.map_none', rb_str_new, List.length_replicate]
    omega
  | some p =>
    refine ⟨rfl, rfl, rfl, ?_, ?_⟩
    · simp only [read_init, io_setstrbuf, Option.map_some']
      by_cases h : (p.2.length : Int) ≥ len
      · simp only [h, if_true]
      · simp only [h, if_false, rb_str_modify_expand, List.length_append, List.length_replicate]
        omega
    · simp only [read_init, io_setstrbuf, Option.map_some']
      by_cases h : (p.2.length : Int) ≥ len
      · simp only [h, if_true, str_obj]
      · simp only [h, if_false, rb_str_modify_expand, str_obj]

/-- The trace of read is the trace of its loop; a value is returned exactly when the loop is
left through `break`, and it is `Qnil` or the string cut to `total` bytes. -/
theorem read_shape (fd : Int) (cur : Nat) (resume : Nat → VALUE) (alloc : Nat)
    (str : Option (Nat × List Byte)) (length : Option Int) (to_eof : VALUE)
    (sys : List (Sys (List Byte))) (hlen : 0 ≤ length.getD 4096) :
    (LibevBackend_read fd cur resume alloc str length to_eof sys).2
      = (LibevBackend_read_while fd cur resume length.isNone (RTEST to_eof) sys
          (read_init str (length.getD 4096) alloc)).2 ∧
    (∀ v, (LibevBackend_read fd cur resume alloc str length to_eof sys).1 = .returned v →
      ∃ st, (LibevBackend_read_while fd cur resume length.isNone (RTEST to_eof) sys
          (read_init str (length.getD 4096) alloc)).1 = .done st ∧
        v = if st.total = 0 then VALUE.Qnil
            else VALUE.str (io_set_read_length st.str st.total st.shrinkable).obj
              (io_set_read_length st.str st.total st.shrinkable).bytes) ∧
    (∀ st, (LibevBackend_read_while fd cur resume length.isNone (RTEST to_eof) sys
          (read_init str (length.getD 4096) alloc)).1 = .done st →
      (LibevBackend_read fd cur resume alloc str length to_eof sys).1
        = .returned (if st.total = 0 then VALUE.Qnil
            else VALUE.str (io_set_read_length st.str st.total st.shrinkable).obj
              (io_set_read_length st.str st.total st.shrinkable).bytes)) := by
  have hnl : ¬ (length.getD 4096 < 0) := by omega
  unfold LibevBackend_read
  simp only [hnl, if_false]
  cases hx : (LibevBackend_read_while fd cur resume length.isNone (RTEST to_eof) sys
      (read_init str (length.getD 4096) alloc)).1 with
  | done st =>
    by_cases h0 : st.total = 0
    · simp [h0]
    · simp [h0]
  | error e => simp
  | syserr e => simp
  | unmodelled => simp
  | pending => simp

/-- C5: for every read called with an explicit length len >= 0 (to_eof true or false) and every
kernel script in which each successful read returns at most the count asked, every read system
call asks for exactly len - total bytes at the buffer offset total, where total is the number
of bytes supplied before it (and total <= len); and when the call returns normally it returns
either nil or a buffer whose length is the number of bytes supplied, between 1 and len. -/
theorem read_explicit_len_bound (fd : Int) (cur : Nat) (resume : Nat → VALUE) (alloc : Nat)
    (str : Option (Nat × List Byte)) (len : Int) (to_eof : VALUE)
    (sys : List (Sys (List Byte))) (hlen : 0 ≤ len)
    (hk : read_kernel_ok (LibevBackend_read fd cur resume alloc str (some len) to_eof sys).2
      = true) :
    (∀ pre fd' buf count r post,
      (LibevBackend_read fd cur resume alloc str (some len) to_eof sys).2
          = pre ++ Event.sys_read fd' buf count r :: post →
        (buf : Int) = ((supplied_bytes pre).length : Int) ∧
        count = len - ((supplied_bytes pre).length : Int) ∧ 0 ≤ count) ∧
    (∀ v, (LibevBackend_read fd cur resume alloc str (some len) to_eof sys).1
          = Outcome.returned v →
        v = VALUE.Qnil ∨
        ∃ obj bytes, v = VALUE.str obj bytes ∧
          bytes.length
            = (supplied_bytes (LibevBackend_read fd cur resume alloc str (some len) to_eof sys).2).length ∧
          1 ≤ bytes.length ∧ (bytes.length : Int) ≤ len) := by
  obtain ⟨htr, hret, _⟩ := read_shape fd cur resume alloc str (some len) to_eof sys hlen
  simp only [Option.getD_some] at htr hret
  obtain ⟨hb, ht, hl, hcap, _⟩ := read_init_spec str len alloc hlen
  rw [htr] at hk ⊢
  have hinv := read_while_inv fd cur resume (some len).isNone (RTEST to_eof) sys
    (read_init str len alloc) []
    (by rw [hb, ht]; rfl) (by rw [hb]; rfl) (by rw [ht, hl]; exact hlen) (by rw [hl]; exact hcap)
    (by rw [hb]; rfl) hk
  rw [hl] at hinv
  simp only [List.nil_append, List.length_nil] at hinv
  constructor
  · intro pre fd' buf count r post hsplit
    have h1 := hinv.1 rfl
    rw [hsplit] at h1
    have := read_trace_inv_split len fd' buf count r post pre 0 h1
    simpa using this
  · intro v hv
    obtain ⟨st, hst, hvst⟩ := hret v hv
    obtain ⟨h1, h2, h3, _, h5⟩ := hinv.2 st hst
    by_cases h0 : st.total = 0
    · left; rw [hvst, if_pos h0]
    · right
      rw [hvst, if_neg h0]
      have htn : st.total = ((st.total.toNat : Nat) : Int) := by
        rw [h1]; simp
      have hle : st.total.toNat ≤ st.str.mem.length := by
        rw [h1]; simpa using h3
      have hb := (io_set_read_length_bytes st.str st.total.toNat st.shrinkable hle).1
      rw [← htn] at hb
      refine ⟨_, _, rfl, ?_, ?_, ?_⟩
      · rw [hb, List.length_take, Nat.min_eq_left hle, h1]; simp
      · rw [hb, List.length_take, Nat.min_eq_left hle]; omega
      · rw [hb, List.length_take, Nat.min_eq_left hle]
        have := h5 rfl
        omega

/-- Witness of C5: length 5, to_eof true, five bytes supplied in three reads with one retryable
failure; the statement is instantiated at the last read system call. -/
theorem read_explicit_len_bound_witness :
    (((3 : Nat) : Int) = ((supplied_bytes
        ((LibevBackend_read 5 1 (fun _ => .Qnil) 100 none (some 5) .Qtrue
          [.ok [1, 2], .fail 11, .ok [3], .ok [4, 5]]).2.take 6)).length : Int) ∧
      (2 : Int) = 5 - ((supplied_bytes
        ((LibevBackend_read 5 1 (fun _ => .Qnil) 100 none (some 5) .Qtrue
          [.ok [1, 2], .fail 11, .ok [3], .ok [4, 5]]).2.take 6)).length : Int) ∧
      (0 : Int) ≤ 2) ∧
    (VALUE.str 100 [1, 2, 3, 4, 5] = VALUE.Qnil ∨
      ∃ obj bytes, VALUE.str 100 [1, 2, 3, 4, 5] = VALUE.str obj bytes ∧
        bytes.length = (supplied_bytes
          (LibevBackend_read 5 1 (fun _ => .Qnil) 100 none (some 5) .Qtrue
            [.ok [1, 2], .fail 11, .ok [3], .ok [4, 5]]).2).length ∧
        1 ≤ bytes.length ∧ (bytes.length : Int) ≤ 5) :=
  ⟨(read_explicit_len_bound 5 1 (fun _ => .Qnil) 100 none 5 .Qtrue
      [.ok [1, 2], .fail 11, .ok [3], .ok [4, 5]] (by decide) (by decide)).1
      ((LibevBackend_read 5 1 (fun _ => .Qnil) 100 none (some 5) .Qtrue
        [.ok [1, 2], .fail 11, .ok [3], .ok [4, 5]]).2.take 6)
      5 3 2 (.ok [4, 5])
      ((LibevBackend_read 5 1 (fun _ => .Qnil) 100 none (some 5) .Qtrue
        [.ok [1, 2], .fail 11, .ok [3], .ok [4, 5]]).2.drop 7) (by decide),
   (read_explicit_len_bound 5 1 (fun _ => .Qnil) 100 none 5 .Qtrue
      [.ok [1, 2], .fail 11, .ok [3], .ok [4, 5]] (by decide) (by decide)).2
      (.str 100 [1, 2, 3, 4, 5]) (by decide)⟩

theorem concat_bufs_eq_nil (cs : List (List Byte)) (h : ∀ c ∈ cs, c ≠ []) :
    concat_bufs cs = [] ↔ cs = [] := by
  cases cs with
  | nil => simp [concat_bufs]
  | cons c rest =>
    have := h c (List.mem_cons_self _ _)
    simp [concat_bufs, this]

/-- In dynamic mode with to_eof set, chunks and retryable failures keep the loop going and the
end of file leaves it; the bytes supplied are the chunks in order. -/
theorem read_while_eof_done (fd : Int) (cur : Nat) (resume : Nat → VALUE)
    (rest : List (Sys (List Byte))) (hres : ∀ i, TEST_EXCEPTION (resume i) = false) :
    ∀ (pre : List (Sys (List Byte))) (st : ReadState),
      (∀ r ∈ pre, (∃ e, r = Sys.fail e ∧ fatal_errno e = false) ∨ (∃ d, r = Sys.ok d ∧ d ≠ [])) →
      ∃ st', (LibevBackend_read_while fd cur resume true true (pre ++ Sys.ok [] :: rest) st).1 = .done st' ∧
        supplied_bytes (LibevBackend_read_while fd cur resume true true (pre ++ Sys.ok [] :: rest) st).2
          = concat_bufs (chunks pre) := by
  intro pre
  induction pre with
  | nil =>
    intro st _
    simp [LibevBackend_read_while, hres, supplied_bytes, chunks, concat_bufs]
  | cons r pre ih =>
    intro st hpre
    have hpre' : ∀ r ∈ pre, (∃ e, r = Sys.fail e ∧ fatal_errno e = false) ∨
        (∃ d, r = Sys.ok d ∧ d ≠ []) := fun x hx => hpre x (List.mem_cons_of_mem _ hx)
    rcases hpre r (List.mem_cons_self _ _) with ⟨e, hr, hf⟩ | ⟨d, hr, hd⟩
    · subst hr
      simp only [List.cons_append, LibevBackend_read_while, hf, hres, if_false, Bool.false_eq_true,
        supplied_bytes, chunks]
      exact ih _ hpre'
    · subst hr
      have hn : ¬ ((d.length : Int) = 0) := by
        intro h
        have : d.length = 0 := by exact_mod_cast h
        exact hd (List.length_eq_zero.mp this)
      have key : ∀ X : ReadState, ∃ st',
          (LibevBackend_read_while fd cur resume true true (pre ++ Sys.ok [] :: rest) X).1 = .done st' ∧
          d ++ supplied_bytes (LibevBackend_read_while fd cur resume true true (pre ++ Sys.ok [] :: rest) X).2
            = d ++ concat_bufs (chunks pre) := by
        intro X
        obtain ⟨st', h1, h2⟩ := ih X hpre'
        exact ⟨st', h1, by rw [h2]⟩
      by_cases hfull : st.total + (d.length : Int) = st.len
      · simp only [List.cons_append, LibevBackend_read_while, hres, hn, hfull, if_true, if_false,
          Bool.false_eq_true, Bool.not_true, supplied_bytes, chunks, concat_bufs]
        exact key _
      · simp only [List.cons_append, LibevBackend_read_while, hres, hn, hfull, if_true, if_false,
          Bool.false_eq_true, Bool.not_true, supplied_bytes, chunks, concat_bufs]
        exact key _

theorem chunks_nonempty (pre : List (Sys (List Byte)))
    (hpre : ∀ r ∈ pre, (∃ e, r = Sys.fail e ∧ fatal_errno e = false) ∨
      (∃ d, r = Sys.ok d ∧ d ≠ [])) :
    ∀ c ∈ chunks pre, c ≠ [] := by
  induction pre with
  | nil => intro c hc; simp [chunks] at hc
  | cons r pre ih =>
    have hpre' : ∀ r ∈ pre, (∃ e, r = Sys.fail e ∧ fatal_errno e = false) ∨
        (∃ d, r = Sys.ok d ∧ d ≠ []) := fun x hx => hpre x (List.mem_cons_of_mem _ hx)
    rcases hpre r (List.mem_cons_self _ _) with ⟨e, hr, _⟩ | ⟨d, hr, hd⟩
    · subst hr
      simpa [chunks] using ih hpre'
    · subst hr
      intro c hc
      simp only [chunks, List.mem_cons] at hc
      rcases hc with hc | hc
      · rw [hc]; exact hd
      · exact ih hpre' c hc

/-- C6: for a read called with to_eof true and no explicit length, when the kernel supplies
chunks c1..ck (each non-empty and no longer than the count asked, possibly interleaved with
retryable failures) and then the end of file, and no resume value is exception-like, read
returns a buffer equal to c1 ++ ... ++ ck; when k = 0 it returns nil. -/
theorem read_to_eof_dynamic (fd : Int) (cur : Nat) (resume : Nat → VALUE) (alloc : Nat)
    (str : Option (Nat × List Byte)) (to_eof : VALUE) (pre rest : List (Sys (List Byte)))
    (heof : RTEST to_eof = true)
    (hpre : ∀ r ∈ pre, (∃ e, r = Sys.fail e ∧ fatal_errno e = false) ∨
      (∃ d, r = Sys.ok d ∧ d ≠ []))
    (hres : ∀ i, TEST_EXCEPTION (resume i) = false)
    (hk : read_kernel_ok
      (LibevBackend_read fd cur resume alloc str none to_eof (pre ++ Sys.ok [] :: rest)).2
        = true) :
    (LibevBackend_read fd cur resume alloc str none to_eof (pre ++ Sys.ok [] :: rest)).1
      = if chunks pre = [] then Outcome.returned VALUE.Qnil
        else Outcome.returned (VALUE.str (str_obj str alloc) (concat_bufs (chunks pre))) := by
  have hlen : (0 : Int) ≤ (none : Option Int).getD 4096 := by simp
  obtain ⟨htr, _, hret⟩ := read_shape fd cur resume alloc str none to_eof
    (pre ++ Sys.ok [] :: rest) hlen
  simp only [Option.getD_none, Option.isNone_none, heof] at htr hret
  obtain ⟨hb, ht, hl, hcap, hobj⟩ := read_init_spec str 4096 alloc (by decide)
  obtain ⟨st, hst, hsup⟩ := read_while_eof_done fd cur resume rest hres pre
    (read_init str 4096 alloc) hpre
  rw [htr] at hk
  have hinv := (read_while_inv fd cur resume true true (pre ++ Sys.ok [] :: rest)
    (read_init str 4096 alloc) []
    (by rw [hb, ht]; rfl) (by rw [hb]; rfl) (by rw [ht, hl]; decide) (by rw [hl]; exact hcap)
    (by rw [hb]; rfl) hk).2 st hst
  rw [hsup] at hinv
  simp only [List.nil_append] at hinv
  obtain ⟨h1, h2, h3, h4, _⟩ := hinv
  rw [hret st hst]
  have hnil := concat_bufs_eq_nil (chunks pre) (chunks_nonempty pre hpre)
  by_cases hc : chunks pre = []
  · have h0 : st.total = 0 := by
      rw [h1, hnil.mpr hc]; rfl
    rw [if_pos hc, if_pos h0]
  · have h0 : st.total ≠ 0 := by
      rw [h1]
      intro h
      have : (concat_bufs (chunks pre)).length = 0 := by exact_mod_cast h
      exact hc (hnil.mp (List.length_eq_zero.mp this))
    rw [if_neg hc, if_neg h0]
    have htn : st.total = ((concat_bufs (chunks pre)).length : Int) := h1
    have hsb := io_set_read_length_bytes st.str (concat_bufs (chunks pre)).length st.shrinkable h3
    rw [← htn] at hsb
    rw [hsb.1, hsb.2, h2, h4, hobj]

/-- Witness of C6: the chunks [1, 2] and [3] with one retryable failure between them, then the
end of file; read returns the new string 100 with the contents [1, 2, 3]. -/
theorem read_to_eof_dynamic_witness :
    (LibevBackend_read 5 1 (fun _ => .Qnil) 100 none none .Qtrue
        ([.ok [1, 2], .fail 11, .ok [3]] ++ Sys.ok [] :: [])).1
      = Outcome.returned (VALUE.str 100 [1, 2, 3]) :=
  (read_to_eof_dynamic 5 1 (fun _ => .Qnil) 100 none .Qtrue [.ok [1, 2], .fail 11, .ok [3]] []
    rfl
    (by
      intro r hr
      simp only [List.mem_cons, List.mem_singleton, List.not_mem_nil, or_false] at hr
      rcases hr with rfl | rfl | rfl
      · exact Or.inr ⟨[1, 2], rfl, by decide⟩
      · exact Or.inl ⟨11, rfl, by decide⟩
      · exact Or.inr ⟨[3], rfl, by decide⟩)
    (fun _ => rfl) (by decide)).trans (by decide)

/-! ## Theorems: read loop -/

theorem libev_await_spec (backend : LibevBackend_t) (v : VALUE) :
    libev_await backend v = (backend, v) := by
  cases backend
  simp [libev_await]

theorem shift_exit_status (c : Int) : (c * 256) >>> (8 : Nat) = c := by
  rw [Int.shiftRight_eq_div_pow]
  norm_num

/-- C8: for every child event with reported pid p and raw status r, the child callback
schedules the waiting fiber with the pair (p, r >> 8), and waitpid, resumed by that scheduling,
returns that pair (it is not exception-like) and leaves the backend as it was; in particular
for a child that exits normally with code c (raw status c * 256) waitpid returns (p, c). -/
theorem waitpid_returns_pid_status (backend : LibevBackend_t) (cur : Nat) (pid p r : Int) :
    (∀ w : libev_child, child_event p r w
      = [Event.make_runnable w.fiber (.ary2 (.int p) (.int (r >>> (8 : Nat))))]) ∧
    LibevBackend_waitpid backend cur pid (child_event p r)
      = (backend, Outcome.returned (.ary2 (.int p) (.int (r >>> (8 : Nat))))) ∧
    (∀ c : Int, LibevBackend_waitpid backend cur pid (child_event p (c * 256))
      = (backend, Outcome.returned (.ary2 (.int p) (.int c)))) := by
  have h : ∀ s : Int, LibevBackend_waitpid backend cur pid (child_event p s)
      = (backend, Outcome.returned (.ary2 (.int p) (.int (s >>> (8 : Nat))))) := by
    intro s
    simp [LibevBackend_waitpid, child_event, LibevBackend_child_callback, Thread_switch_fiber,
      libev_await_spec, TEST_EXCEPTION]
  refine ⟨fun w => rfl, h r, fun c => ?_⟩
  rw [h, shift_exit_status]

/-- Example for C8: waitpid on the child 4242, which exits with code 7 (raw status 1792),
returns (4242, 7). -/
theorem waitpid_exit_7_example :
    LibevBackend_waitpid ⟨⟨true, 1, 0⟩, 0, 0, 0⟩ 1 4242 (child_event 4242 1792)
      = (⟨⟨true, 1, 0⟩, 0, 0, 0⟩, Outcome.returned (.ary2 (.int 4242) (.int 7))) := by
  decide

/-- C9 (as amended): for every reactor state, immediately after post_fork the multiplexer of
the reactor is the fresh default one, with no watcher started and none pending, and ref_count
is what it was before; after reset_ref_count, the operation that the backend provides for it,
ref_count is zero and the multiplexer is still the fresh one. -/
theorem post_fork_fresh_loop (backend : LibevBackend_t) :
    (LibevBackend_post_fork backend).1.ev_loop = EV_DEFAULT ∧
    (LibevBackend_post_fork backend).1.ev_loop.pending = 0 ∧
    (LibevBackend_post_fork backend).1.ev_loop.active = 0 ∧
    LibevBackend_pending_count (LibevBackend_post_fork backend).1 = VALUE.int 0 ∧
    (LibevBackend_post_fork backend).1.ref_count = backend.ref_count ∧
    (LibevBackend_reset_ref_count (LibevBackend_post_fork backend).1).ref_count = 0 ∧
    (LibevBackend_reset_ref_count (LibevBackend_post_fork backend).1).ev_loop = EV_DEFAULT := by
  simp [LibevBackend_post_fork, LibevBackend_reset_ref_count, LibevBackend_pending_count,
    EV_DEFAULT]

/-- C9 (counterexample): a reactor on which two fibers were awaiting at fork time (ref_count 2,
two watchers started, one pending) still has ref_count 2 immediately after post_fork, not
zero. -/
theorem post_fork_keeps_ref_count_counterexample :
    (LibevBackend_post_fork (LibevBackend_ref (LibevBackend_ref ⟨⟨true, 2, 1⟩, 0, 0, 0⟩))).1.ref_count
      = 2 := by
  decide

/-! ## Theorems: accept -/

theorem accept_discipline_split (loop : Bool) (out : Outcome) (lfd : Int) (fd : Nat)
    (post : List Event) :
    ∀ pre : List Event,
      accept_discipline loop out (pre ++ Event.sys_accept lfd (.ok fd) :: post) →
      after_accept loop out fd post := by
  intro pre
  induction pre with
  | nil => intro h; exact h.1
  | cons e t ih =>
    intro h
    cases e with
    | sys_accept l r =>
      cases r with
      | fail e' => exact ih h
      | ok fd' => exact ih h.2
    | _ => exact ih h

theorem after_accept_cancel (loop : Bool) (fd : Nat) (v : VALUE) (h : TEST_EXCEPTION v = true) :
    after_accept loop (Outcome.raised v) fd [Event.snooze v, Event.sys_close fd] := by
  refine ⟨v, [Event.sys_close fd], rfl, fun _ => ⟨rfl, rfl⟩, fun h' => ?_⟩
  rw [h] at h'
  cases h'

theorem after_accept_return (fd : Nat) (v : VALUE) (h : TEST_EXCEPTION v = false) :
    after_accept false (Outcome.returned (.socket fd)) fd
      [Event.snooze v, Event.make_open_file fd] := by
  refine ⟨v, [Event.make_open_file fd], rfl, fun h' => ?_, fun _ => ?_⟩
  · rw [h] at h'
    cases h'
  · simp

theorem after_accept_yield (out : Outcome) (fd : Nat) (v : VALUE) (more : List Event)
    (h : TEST_EXCEPTION v = false) :
    after_accept true out fd
      (Event.snooze v :: Event.make_open_file fd :: Event.rb_yield (.socket fd) :: more) := by
  refine ⟨v, Event.make_open_file fd :: Event.rb_yield (.socket fd) :: more, rfl,
    fun h' => ?_, fun _ => ?_⟩
  · rw [h] at h'
    cases h'
  · simp

theorem accept_while_discipline (lfd : Int) (cur : Nat) (resume : Nat → VALUE) :
    ∀ (sys : List (Sys Nat)) (st : AcceptState),
      accept_discipline false (LibevBackend_accept_while lfd cur resume sys st).1
        (LibevBackend_accept_while lfd cur resume sys st).2 ∧
      accepted_fds (LibevBackend_accept_while lfd cur resume sys st).2
        = handed_fds (LibevBackend_accept_while lfd cur resume sys st).1 (LibevBackend_accept_while lfd cur resume sys st).2
          ++ closed_fds (LibevBackend_accept_while lfd cur resume sys st).2 ∧
      wrapped_fds (LibevBackend_accept_while lfd cur resume sys st).2
        = handed_fds (LibevBackend_accept_while lfd cur resume sys st).1
            (LibevBackend_accept_while lfd cur resume sys st).2 := by
  intro sys
  induction sys with
  | nil =>
    intro st
    simp [LibevBackend_accept_while, accept_discipline, accepted_fds, handed_fds, closed_fds, wrapped_fds]
  | cons r rest ih =>
    intro st
    cases r with
    | fail e =>
      by_cases hf : fatal_errno e = true
      · simp [LibevBackend_accept_while, hf, accept_discipline, accepted_fds, handed_fds, closed_fds,
          wrapped_fds]
      · by_cases hx : TEST_EXCEPTION (resume st.susp) = true
        · simp [LibevBackend_accept_while, hf, hx, accept_discipline, accepted_fds, handed_fds, closed_fds,
            wrapped_fds]
        · simp only [LibevBackend_accept_while, hf, hx, if_false, Bool.false_eq_true, accept_discipline,
            accepted_fds, handed_fds, closed_fds, wrapped_fds]
          exact ih _
    | ok fd =>
      by_cases hx : TEST_EXCEPTION (resume st.susp) = true
      · have ha := after_accept_cancel false fd (resume st.susp) hx
        simp only [LibevBackend_accept_while, hx, if_true, accept_discipline, accepted_fds, handed_fds,
          closed_fds, wrapped_fds]
        refine ⟨⟨ha, trivial⟩, ?_⟩
        simp
      · have hx' : TEST_EXCEPTION (resume st.susp) = false := by
          cases h : TEST_EXCEPTION (resume st.susp) <;> simp_all
        have ha := after_accept_return fd (resume st.susp) hx'
        simp only [LibevBackend_accept_while, hx, if_false, Bool.false_eq_true, accept_discipline,
          accepted_fds, handed_fds, closed_fds, wrapped_fds]
        refine ⟨⟨ha, trivial⟩, ?_⟩
        simp

theorem accept_loop_while_discipline (lfd : Int) (cur : Nat) (resume : Nat → VALUE) :
    ∀ (sys : List (Sys Nat)) (st : AcceptState),
      accept_discipline true (LibevBackend_accept_loop_while lfd cur resume sys st).1
        (LibevBackend_accept_loop_while lfd cur resume sys st).2 ∧
      accepted_fds (LibevBackend_accept_loop_while lfd cur resume sys st).2
        = handed_fds (LibevBackend_accept_loop_while lfd cur resume sys st).1
            (LibevBackend_accept_loop_while lfd cur resume sys st).2
          ++ closed_fds (LibevBackend_accept_loop_while lfd cur resume sys st).2 ∧
      wrapped_fds (LibevBackend_accept_loop_while lfd cur resume sys st).2
        = handed_fds (LibevBackend_accept_loop_while lfd cur resume sys st).1
            (LibevBackend_accept_loop_while lfd cur resume sys st).2 ∧
      ∀ v, (LibevBackend_accept_loop_while lfd cur resume sys st).1 ≠ Outcome.returned v := by
  intro sys
  induction sys with
  | nil =>
    intro st
    simp [LibevBackend_accept_loop_while, accept_discipline, accepted_fds, handed_fds, closed_fds,
      wrapped_fds]
  | cons r rest ih =>
    intro st
    cases r with
    | fail e =>
      by_cases hf : fatal_errno e = true
      · simp [LibevBackend_accept_loop_while, hf, accept_discipline, accepted_fds, handed_fds, closed_fds,
          wrapped_fds]
      · by_cases hx : TEST_EXCEPTION (resume st.susp) = true
        · simp [LibevBackend_accept_loop_while, hf, hx, accept_discipline, accepted_fds, handed_fds,
            closed_fds, wrapped_fds]
        · simp only [LibevBackend_accept_loop_while, hf, hx, if_false, Bool.false_eq_true, accept_discipline,
            accepted_fds, handed_fds, closed_fds, wrapped_fds]
          exact ih _
    | ok fd =>
      by_cases hx : TEST_EXCEPTION (resume st.susp) = true
      · have ha := after_accept_cancel true fd (resume st.susp) hx
        simp only [LibevBackend_accept_loop_while, hx, if_true, accept_discipline, accepted_fds, handed_fds,
          closed_fds, wrapped_fds]
        refine ⟨⟨ha, trivial⟩, ?_⟩
        simp
      · have hx' : TEST_EXCEPTION (resume st.susp) = false := by
          cases h : TEST_EXCEPTION (resume st.susp) <;> simp_all
        have hrec := ih { st with susp := st.susp + 1 }
        simp only [LibevBackend_accept_loop_while, hx, if_false, Bool.false_eq_true, accept_discipline,
          accepted_fds, handed_fds, closed_fds, wrapped_fds]
        refine ⟨⟨after_accept_yield _ fd _ _ hx', hrec.1⟩, ?_, ?_, hrec.2.2.2⟩
        · rw [hrec.2.1]; rfl
        · rw [hrec.2.2.1]

/-- C10: in accept and in accept_loop every successful accept system call, with descriptor fd,
is followed by the snooze; when the snooze resumes with an exception-like value the rest of
the call is exactly the closing of fd (once, with no socket wrapped, yielded or returned) and
the exception is raised; otherwise fd is wrapped in a socket that is returned (accept) or
yielded (accept_loop). Hence the descriptors obtained from accept are, one for one and in
order, those handed to the caller as sockets followed by those closed, and the descriptors
wrapped in sockets are exactly those handed to the caller. -/
theorem accept_closes_on_cancel (lfd : Int) (cur : Nat) (resume : Nat → VALUE)
    (sys : List (Sys Nat)) :
    (∀ pre l fd post,
      (LibevBackend_accept lfd cur resume sys).2 = pre ++ Event.sys_accept l (.ok fd) :: post →
        after_accept false (LibevBackend_accept lfd cur resume sys).1 fd post) ∧
    (∀ pre l fd post,
      (LibevBackend_accept_loop lfd cur resume sys).2
          = pre ++ Event.sys_accept l (.ok fd) :: post →
        after_accept true (LibevBackend_accept_loop lfd cur resume sys).1 fd post) ∧
    (accepted_fds (LibevBackend_accept lfd cur resume sys).2
        = handed_fds (LibevBackend_accept lfd cur resume sys).1
            (LibevBackend_accept lfd cur resume sys).2
          ++ closed_fds (LibevBackend_accept lfd cur resume sys).2 ∧
      wrapped_fds (LibevBackend_accept lfd cur resume sys).2
        = handed_fds (LibevBackend_accept lfd cur resume sys).1
            (LibevBackend_accept lfd cur resume sys).2) ∧
    (accepted_fds (LibevBackend_accept_loop lfd cur resume sys).2
        = handed_fds (LibevBackend_accept_loop lfd cur resume sys).1
            (LibevBackend_accept_loop lfd cur resume sys).2
          ++ closed_fds (LibevBackend_accept_loop lfd cur resume sys).2 ∧
      wrapped_fds (LibevBackend_accept_loop lfd cur resume sys).2
        = handed_fds (LibevBackend_accept_loop lfd cur resume sys).1
            (LibevBackend_accept_loop lfd cur resume sys).2) := by
  have ha := accept_while_discipline lfd cur resume sys ⟨.Qnil, 0⟩
  have hl := accept_loop_while_discipline lfd cur resume sys ⟨.Qnil, 0⟩
  refine ⟨?_, ?_, ⟨ha.2.1, ha.2.2⟩, ⟨hl.2.1, hl.2.2.1⟩⟩
  · intro pre l fd post hsplit
    have h := ha.1
    unfold LibevBackend_accept at hsplit ⊢
    rw [hsplit] at h
    exact accept_discipline_split false _ l fd post pre h
  · intro pre l fd post hsplit
    have h := hl.1
    unfold LibevBackend_accept_loop at hsplit ⊢
    rw [hsplit] at h
    exact accept_discipline_split true _ l fd post pre h

/-- Example for C10: accept_loop accepts the descriptors 7 and 8; the snooze after the second
resumes with an exception, so 7 is yielded as a socket and 8 is closed, and the exception is
raised. -/
theorem accept_loop_cancel_example :
    LibevBackend_accept_loop 3 1 (fun i => if i = 2 then .exception 0 else .Qnil)
        [.ok 7, .fail 11, .ok 8]
      = (Outcome.raised (.exception 0),
          [.sys_accept 3 (.ok 7), .snooze .Qnil, .make_open_file 7, .rb_yield (.socket 7),
           .sys_accept 3 (.fail 11), .wait_fd 3 .EV_READ .Qnil,
           .sys_accept 3 (.ok 8), .snooze (.exception 0), .sys_close 8]) := by
  decide

/-! ## Theorems: poll entering the multiplexer -/

/-- The reference count is the same before and after every poll. -/
theorem poll_ref_count_unchanged (ev_run : EvLoop → EvRunMode → EvLoop) (tr : Bool)
    (b : LibevBackend_t) (nowait fiber : VALUE) (queue : List VALUE) :
    (LibevBackend_poll ev_run tr b nowait fiber queue).1.ref_count = b.ref_count := by
  unfold LibevBackend_poll
  simp only
  split_ifs <;> rfl

/-- C15: whenever a poll call does not return early (nowait is not true, or the counter as the
`int` stored by the increment is not below max(runnable_count, 10)), the multiplexer is run exactly once, in mode
once when nowait is not true and in mode nowait when it is, with run_no_wait_count zero and
the running flag set at the moment of the run; when poll returns the running flag is clear
and run_no_wait_count is zero; ref_count is unchanged by poll, early return or not. -/
theorem poll_enters_multiplexer (ev_run : EvLoop → EvRunMode → EvLoop) (tr : Bool)
    (b : LibevBackend_t) (nowait fiber : VALUE) (queue : List VALUE)
    (h : nowait ≠ VALUE.Qtrue
      ∨ ¬ to_int (b.run_no_wait_count + 1) < max (Queue_len queue) 10) :
    (LibevBackend_poll ev_run tr b nowait fiber queue).2.filter is_ev_run
      = [Event.ev_run (if nowait = VALUE.Qtrue then .EVRUN_NOWAIT else .EVRUN_ONCE)
          1 b.ref_count 0] ∧
    (LibevBackend_poll ev_run tr b nowait fiber queue).1.running = 0 ∧
    (LibevBackend_poll ev_run tr b nowait fiber queue).1.run_no_wait_count = 0 ∧
    (LibevBackend_poll ev_run tr b nowait fiber queue).1.ref_count = b.ref_count ∧
    (LibevBackend_poll ev_run tr b nowait fiber queue).1.ev_loop
      = ev_run b.ev_loop (if nowait = VALUE.Qtrue then .EVRUN_NOWAIT else .EVRUN_ONCE) := by
  have hcond : (decide (nowait = VALUE.Qtrue) &&
      (decide ((if decide (nowait = VALUE.Qtrue) = true then
            ({ b with run_no_wait_count := to_int (b.run_no_wait_count + 1) } : LibevBackend_t)
          else b).run_no_wait_count < Queue_len queue)
        || decide ((if decide (nowait = VALUE.Qtrue) = true then
            ({ b with run_no_wait_count := to_int (b.run_no_wait_count + 1) } : LibevBackend_t)
          else b).run_no_wait_count < 10))) = false := by
    rcases h with h | h
    · simp [h]
    · by_cases hn : nowait = VALUE.Qtrue
      · have h1 : ¬ to_int (b.run_no_wait_count + 1) < Queue_len queue :=
          fun hh => h (lt_max_iff.mpr (Or.inl hh))
        have h2 : ¬ to_int (b.run_no_wait_count + 1) < 10 :=
          fun hh => h (lt_max_iff.mpr (Or.inr hh))
        simp [hn, h1, h2]
      · simp [hn]
  unfold LibevBackend_poll
  simp only [hcond, Bool.false_eq_true, if_false]
  by_cases hn : nowait = VALUE.Qtrue
  · cases tr <;> simp [hn, COND_TRACE, is_ev_run]
  · cases tr <;> simp [hn, COND_TRACE, is_ev_run]

/-- Witness of C15: a blocking poll (nowait = nil) with tracing on, from counter 4, ref_count 2
and a stale running flag. -/
theorem poll_enters_multiplexer_witness :
    (LibevBackend_poll (fun l _ => l) true ⟨⟨true, 1, 0⟩, 1, 2, 4⟩ .Qnil (.fiber 1) []).2.filter
        is_ev_run
      = [Event.ev_run (if VALUE.Qnil = VALUE.Qtrue then .EVRUN_NOWAIT else .EVRUN_ONCE) 1 2 0] ∧
    (LibevBackend_poll (fun l _ => l) true ⟨⟨true, 1, 0⟩, 1, 2, 4⟩ .Qnil (.fiber 1) []).1.running
      = 0 ∧
    (LibevBackend_poll (fun l _ => l) true ⟨⟨true, 1, 0⟩, 1, 2, 4⟩ .Qnil
        (.fiber 1) []).1.run_no_wait_count = 0 ∧
    (LibevBackend_poll (fun l _ => l) true ⟨⟨true, 1, 0⟩, 1, 2, 4⟩ .Qnil (.fiber 1) []).1.ref_count
      = 2 ∧
    (LibevBackend_poll (fun l _ => l) true ⟨⟨true, 1, 0⟩, 1, 2, 4⟩ .Qnil (.fiber 1) []).1.ev_loop
      = (fun (l : EvLoop) (_ : EvRunMode) => l) ⟨true, 1, 0⟩
          (if VALUE.Qnil = VALUE.Qtrue then .EVRUN_NOWAIT else .EVRUN_ONCE) :=
  poll_enters_multiplexer (fun l _ => l) true ⟨⟨true, 1, 0⟩, 1, 2, 4⟩ .Qnil (.fiber 1) []
    (Or.inl (by decide))

/-- Example for C15: a nowait poll at the threshold (counter 9, empty run queue) runs the
multiplexer once in nowait mode, between the two trace hooks. -/
theorem poll_nowait_threshold_example :
    LibevBackend_poll (fun l _ => l) true ⟨⟨true, 1, 0⟩, 0, 2, 9⟩ .Qtrue (.fiber 1) []
      = (⟨⟨true, 1, 0⟩, 0, 2, 0⟩,
          [.fiber_trace .SYM_fiber_ev_loop_enter (.fiber 1),
           .ev_run .EVRUN_NOWAIT 1 2 0,
           .fiber_trace .SYM_fiber_ev_loop_leave (.fiber 1)]) := by
  decide

/-! ## Theorems: the fairness snooze of write and writev -/

theorem stamp_fiber_ne_nil (w : VALUE) (cur : Nat) : stamp_fiber w cur ≠ VALUE.Qnil := by
  unfold stamp_fiber
  split_ifs with h
  · intro hh; cases hh
  · exact h

theorem count_snoozes_append (a b : List Event) :
    count_snoozes (a ++ b) = count_snoozes a + count_snoozes b := by
  induction a with
  | nil => simp [count_snoozes]
  | cons e t ih =>
    cases e <;> simp [count_snoozes, ih]
    omega

theorem count_waits_append (a b : List Event) :
    count_waits (a ++ b) = count_waits a + count_waits b := by
  induction a with
  | nil => simp [count_waits]
  | cons e t ih =>
    cases e <;> simp [count_waits, ih]
    omega

/-- The loop of write never snoozes, and on its normal exit the watcher is still unstamped
exactly when it was so on entry and no readiness wait took place. -/
theorem write_while_waits (fd : Int) (cur : Nat) (resume : Nat → VALUE) :
    ∀ (sys : List (Sys Nat)) (st st' : WriteState),
      (LibevBackend_write_while fd cur resume sys st).1 = .done st' →
      count_snoozes (LibevBackend_write_while fd cur resume sys st).2 = 0 ∧
      (st'.watcher_fiber = VALUE.Qnil ↔
        (st.watcher_fiber = VALUE.Qnil ∧
          count_waits (LibevBackend_write_while fd cur resume sys st).2 = 0)) := by
  intro sys
  induction sys with
  | nil =>
    intro st st' hd
    by_cases hl : st.left > 0
    · simp [LibevBackend_write_while, hl] at hd
    · simp only [LibevBackend_write_while, hl, if_false, LoopExit.done.injEq] at hd ⊢
      subst hd
      simp [count_snoozes, count_waits]
  | cons r rest ih =>
    intro st st' hd
    by_cases hl : st.left > 0
    · cases r with
      | fail e =>
        by_cases hf : fatal_errno e = true
        · simp [LibevBackend_write_while, hl, hf] at hd
        · by_cases hx : TEST_EXCEPTION (resume st.susp) = true
          · simp [LibevBackend_write_while, hl, hf, hx] at hd
          · simp only [LibevBackend_write_while, hl, hf, hx, if_true, if_false,
              Bool.false_eq_true] at hd ⊢
            have hrec := ih _ st' hd
            simp only [count_snoozes, count_waits]
            refine ⟨hrec.1, ?_⟩
            constructor
            · intro h
              exact absurd (hrec.2.mp h).1 (stamp_fiber_ne_nil _ _)
            · intro h
              omega
      | ok n =>
        simp only [LibevBackend_write_while, hl, if_true] at hd ⊢
        have hrec := ih _ st' hd
        simp only [count_snoozes, count_waits]
        exact hrec
    · simp only [LibevBackend_write_while, hl, if_false, LoopExit.done.injEq] at hd ⊢
      subst hd
      simp [count_snoozes, count_waits]

/-- The loop of writev never snoozes, and on its normal exit the watcher is still unstamped
exactly when it was so on entry and no readiness wait took place. -/
theorem writev_while_waits (fd : Int) (cur : Nat) (resume : Nat → VALUE) (tl : Int) :
    ∀ (sys : List (Sys Nat)) (st st' : WritevState),
      (LibevBackend_writev_while fd cur resume tl sys st).1 = .done st' →
      count_snoozes (LibevBackend_writev_while fd cur resume tl sys st).2 = 0 ∧
      (st'.watcher_fiber = VALUE.Qnil ↔
        (st.watcher_fiber = VALUE.Qnil ∧
          count_waits (LibevBackend_writev_while fd cur resume tl sys st).2 = 0)) := by
  intro sys
  induction sys with
  | nil =>
    intro st st' hd
    simp [LibevBackend_writev_while] at hd
  | cons r rest ih =>
    intro st st' hd
    cases r with
    | fail e =>
      by_cases hf : fatal_errno e = true
      · simp [LibevBackend_writev_while, hf] at hd
      · by_cases hx : TEST_EXCEPTION (resume st.susp) = true
        · simp [LibevBackend_writev_while, hf, hx] at hd
        · simp only [LibevBackend_writev_while, hf, hx, if_false, Bool.false_eq_true] at hd ⊢
          have hrec := ih _ st' hd
          simp only [count_snoozes, count_waits]
          refine ⟨hrec.1, ?_⟩
          constructor
          · intro h
            exact absurd (hrec.2.mp h).1 (stamp_fiber_ne_nil _ _)
          · intro h
            omega
    | ok n =>
      by_cases hdone : st.total_written + (n : Int) = tl
      · simp only [LibevBackend_writev_while, hdone, if_true, LoopExit.done.injEq] at hd ⊢
        subst hd
        simp [count_snoozes, count_waits]
      · cases hadv : iov_advance (↑n) st.iov_ptr with
        | none => simp [LibevBackend_writev_while, hdone, hadv] at hd
        | some iov =>
          simp only [LibevBackend_writev_while, hdone, hadv, if_false] at hd ⊢
          have hrec := ih _ st' hd
          simp only [count_snoozes, count_waits]
          exact hrec

/-- C13: for every write and every writev call that returns normally, the number of snoozes
performed by the call is exactly 1 if no readiness wait occurred during the call and exactly 0
if at least one occurred; for the empty payload write attempts no system call and snoozes
once. -/
theorem write_snoozes_once_unless_waited (fd : Int) (cur : Nat) (resume : Nat → VALUE)
    (sys : List (Sys Nat)) :
    (∀ (str : List Byte) (v : VALUE),
      (LibevBackend_write fd cur resume str sys).1 = Outcome.returned v →
      count_snoozes (LibevBackend_write fd cur resume str sys).2
        = if count_waits (LibevBackend_write fd cur resume str sys).2 = 0 then 1 else 0) ∧
    (∀ (argv : List (List Byte)) (v : VALUE),
      (LibevBackend_writev fd cur resume argv sys).1 = Outcome.returned v →
      count_snoozes (LibevBackend_writev fd cur resume argv sys).2
        = if count_waits (LibevBackend_writev fd cur resume argv sys).2 = 0 then 1 else 0) ∧
    (TEST_EXCEPTION (resume 0) = false →
      LibevBackend_write fd cur resume [] sys
        = (Outcome.returned (.int 0), [Event.snooze (resume 0)])) := by
  refine ⟨?_, ?_, ?_⟩
  · intro str v hret
    have hw := write_while_waits fd cur resume sys ⟨0, str.length, .Qnil, 0⟩
    unfold LibevBackend_write at hret ⊢
    cases hx : (LibevBackend_write_while fd cur resume sys ⟨0, str.length, .Qnil, 0⟩).1 with
    | done st =>
      obtain ⟨h1, h2⟩ := hw st hx
      simp only [hx] at hret ⊢
      by_cases hq : st.watcher_fiber = VALUE.Qnil
      · have h0 := (h2.mp hq).2
        by_cases he : TEST_EXCEPTION (resume st.susp) = true
        · simp [hq, he] at hret
        · simp only [hq, he, if_true, if_false, Bool.false_eq_true]
          rw [count_snoozes_append, count_waits_append, h1, h0]
          simp [count_snoozes, count_waits]
      · have h0 : count_waits
            (LibevBackend_write_while fd cur resume sys ⟨0, str.length, .Qnil, 0⟩).2 ≠ 0 :=
          fun h => hq (h2.mpr ⟨rfl, h⟩)
        simp only [hq, if_false]
        rw [h1, if_neg h0]
    | error e => simp [hx] at hret
    | syserr e => simp [hx] at hret
    | unmodelled => simp [hx] at hret
    | pending => simp [hx] at hret
  · intro argv v hret
    have hw := writev_while_waits fd cur resume (iov_total (make_iov 0 argv)) sys
      ⟨make_iov 0 argv, 0, .Qnil, 0⟩
    unfold LibevBackend_writev at hret ⊢
    cases hx : (LibevBackend_writev_while fd cur resume (iov_total (make_iov 0 argv)) sys
        ⟨make_iov 0 argv, 0, .Qnil, 0⟩).1 with
    | done st =>
      obtain ⟨h1, h2⟩ := hw st hx
      simp only [hx] at hret ⊢
      by_cases hq : st.watcher_fiber = VALUE.Qnil
      · have h0 := (h2.mp hq).2
        by_cases he : TEST_EXCEPTION (resume st.susp) = true
        · simp [hq, he] at hret
        · simp only [hq, he, if_true, if_false, Bool.false_eq_true]
          rw [count_snoozes_append, count_waits_append]
          simp [count_snoozes, count_waits, h1, h0]
      · have h0 : count_waits
            (LibevBackend_writev_while fd cur resume (iov_total (make_iov 0 argv)) sys
              ⟨make_iov 0 argv, 0, .Qnil, 0⟩).2 ≠ 0 :=
          fun h => hq (h2.mpr ⟨rfl, h⟩)
        simp only [hq, if_false]
        rw [count_snoozes_append, count_waits_append]
        simp [count_snoozes, count_waits, h1, h0]
    | error e => simp [hx] at hret
    | syserr e => simp [hx] at hret
    | unmodelled => simp [hx] at hret
    | pending => simp [hx] at hret
  · intro he
    have h0 : INT2NUM 0 = VALUE.int 0 := by decide
    cases sys <;> simp [LibevBackend_write, LibevBackend_write_while, he, h0]

/-- Witness of C13: a write that waits once does not snooze; a writev that waits once does not
snooze; the empty write snoozes once without any system call. -/
theorem write_snoozes_once_unless_waited_witness :
    (count_snoozes (LibevBackend_write 5 1 (fun _ => .Qnil) [1, 2, 3] [.ok 2, .fail 11, .ok 1]).2
        = if count_waits (LibevBackend_write 5 1 (fun _ => .Qnil) [1, 2, 3]
            [.ok 2, .fail 11, .ok 1]).2 = 0 then 1 else 0) ∧
    (count_snoozes (LibevBackend_writev 5 1 (fun _ => .Qnil) [[1, 2], [3]]
          [.ok 2, .fail 11, .ok 1]).2
        = if count_waits (LibevBackend_writev 5 1 (fun _ => .Qnil) [[1, 2], [3]]
            [.ok 2, .fail 11, .ok 1]).2 = 0 then 1 else 0) ∧
    (LibevBackend_write 5 1 (fun _ => .Qnil) [] [.ok 2, .fail 11, .ok 1]
        = (Outcome.returned (.int 0), [Event.snooze ((fun _ => VALUE.Qnil) 0)])) :=
  ⟨(write_snoozes_once_unless_waited 5 1 (fun _ => .Qnil) [.ok 2, .fail 11, .ok 1]).1
      [1, 2, 3] (.int 3) (by decide),
   (write_snoozes_once_unless_waited 5 1 (fun _ => .Qnil) [.ok 2, .fail 11, .ok 1]).2.1
      [[1, 2], [3]] (.int 3) (by decide),
   (write_snoozes_once_unless_waited 5 1 (fun _ => .Qnil) [.ok 2, .fail 11, .ok 1]).2.2 rfl⟩

/-- Example for C13: the same three-byte write without and with a readiness wait. -/
theorem write_snooze_example :
    count_snoozes (LibevBackend_write 5 1 (fun _ => .Qnil) [1, 2, 3] [.ok 2, .ok 1]).2 = 1 ∧
    count_waits (LibevBackend_write 5 1 (fun _ => .Qnil) [1, 2, 3] [.ok 2, .ok 1]).2 = 0 ∧
    count_snoozes (LibevBackend_write 5 1 (fun _ => .Qnil) [1, 2, 3] [.ok 2, .fail 11, .ok 1]).2
      = 0 ∧
    count_waits (LibevBackend_write 5 1 (fun _ => .Qnil) [1, 2, 3] [.ok 2, .fail 11, .ok 1]).2
      = 1 := by
  decide

/-! ## Theorems: release of the iovec array -/

theorem count_frees_append (a b : List Event) :
    count_frees (a ++ b) = count_frees a + count_frees b := by
  induction a with
  | nil => simp [count_frees]
  | cons e t ih =>
    cases e <;> simp [count_frees, ih]
    omega

theorem writev_while_no_free (fd : Int) (cur : Nat) (resume : Nat → VALUE) (tl : Int) :
    ∀ (sys : List (Sys Nat)) (st : WritevState),
      count_frees (LibevBackend_writev_while fd cur resume tl sys st).2 = 0 ∧
      count_mallocs (LibevBackend_writev_while fd cur resume tl sys st).2 = 0 := by
  intro sys
  induction sys with
  | nil => intro st; simp [LibevBackend_writev_while, count_frees, count_mallocs]
  | cons r rest ih =>
    intro st
    cases r with
    | fail e =>
      by_cases hf : fatal_errno e = true
      · simp [LibevBackend_writev_while, hf, count_frees, count_mallocs]
      · by_cases hx : TEST_EXCEPTION (resume st.susp) = true
        · simp [LibevBackend_writev_while, hf, hx, count_frees, count_mallocs]
        · simp only [LibevBackend_writev_while, hf, hx, if_false, Bool.false_eq_true,
            count_frees, count_mallocs]
          exact ih _
    | ok n =>
      by_cases hdone : st.total_written + (n : Int) = tl
      · simp [LibevBackend_writev_while, hdone, count_frees, count_mallocs]
      · cases hadv : iov_advance (↑n) st.iov_ptr with
        | none => simp [LibevBackend_writev_while, hdone, hadv, count_frees, count_mallocs]
        | some iov =>
          simp only [LibevBackend_writev_while, hdone, hadv, if_false, count_frees,
            count_mallocs]
          exact ih _

/-- The releases of the iovec array by writev, exit by exit: once when it returns and once when
it raises the exception of a cancellation; never when the writev system call fails with a
fatal errno, where `rb_syserr_fail` leaves the function before any `free`. -/
theorem writev_free_count (fd : Int) (cur : Nat) (resume : Nat → VALUE)
    (argv : List (List Byte)) (sys : List (Sys Nat)) :
    (∀ v, (LibevBackend_writev fd cur resume argv sys).1 = Outcome.returned v →
      count_frees (LibevBackend_writev fd cur resume argv sys).2 = 1) ∧
    (∀ v, (LibevBackend_writev fd cur resume argv sys).1 = Outcome.raised v →
      count_frees (LibevBackend_writev fd cur resume argv sys).2 = 1) ∧
    (∀ e, (LibevBackend_writev fd cur resume argv sys).1 = Outcome.syserr e →
      count_frees (LibevBackend_writev fd cur resume argv sys).2 = 0) := by
  have hn := (writev_while_no_free fd cur resume (iov_total (make_iov 0 argv)) sys
    ⟨make_iov 0 argv, 0, .Qnil, 0⟩).1
  unfold LibevBackend_writev
  cases hx : (LibevBackend_writev_while fd cur resume (iov_total (make_iov 0 argv)) sys
      ⟨make_iov 0 argv, 0, .Qnil, 0⟩).1 with
  | done st =>
    by_cases hq : st.watcher_fiber = VALUE.Qnil
    · by_cases he : TEST_EXCEPTION (resume st.susp) = true
      · refine ⟨?_, ?_, ?_⟩ <;> intro x h <;>
          simp [hx, hq, he, count_frees_append, hn, count_frees] at h ⊢
      · refine ⟨?_, ?_, ?_⟩ <;> intro x h <;>
          simp [hx, hq, he, count_frees_append, hn, count_frees] at h ⊢
    · refine ⟨?_, ?_, ?_⟩ <;> intro x h <;>
        simp [hx, hq, count_frees_append, hn, count_frees] at h ⊢
  | error v =>
    refine ⟨?_, ?_, ?_⟩ <;> intro x h <;> simp [hx, count_frees_append, hn, count_frees] at h ⊢
  | syserr e =>
    refine ⟨?_, ?_, ?_⟩ <;> intro x h <;> simp [hx, count_frees_append, hn, count_frees] at h ⊢
  | unmodelled =>
    refine ⟨?_, ?_, ?_⟩ <;> intro x h <;> simp [hx] at h
  | pending =>
    refine ⟨?_, ?_, ?_⟩ <;> intro x h <;> simp [hx] at h

/-- C14 (the code at the failing input): writev of two one-byte strings whose first writev
system call fails with EPIPE (errno 32). The iovec array is allocated, the call is left
through `rb_syserr_fail`, and the array is never released. -/
theorem writev_fatal_errno_leaks_iov :
    LibevBackend_writev 5 1 (fun _ => .Qnil) [[1], [2]] [.fail 32]
      = (Outcome.syserr 32,
          [.malloc_iov 2, .sys_writev 5 [⟨(0, 0), 1⟩, ⟨(1, 0), 1⟩] (.fail 32)]) ∧
    count_mallocs (LibevBackend_writev 5 1 (fun _ => .Qnil) [[1], [2]] [.fail 32]).2 = 1 ∧
    count_frees (LibevBackend_writev 5 1 (fun _ => .Qnil) [[1], [2]] [.fail 32]).2 = 0 := by
  decide

/-! ## Theorems: the write entry point -/

/-- What the write entry point does, by number of arguments: with fewer than 2 it raises a
RuntimeError through `rb_raise` and does nothing else; with exactly 2 it is write(io, buf);
with more it is writev over the buffers after the io, in the order given. -/
theorem write_m_dispatch (cur : Nat) (resume : Nat → VALUE) (sys : List (Sys Nat)) :
    LibevBackend_write_m cur resume [] sys = .rb_raise .rb_eRuntimeError ∧
    (∀ io_arg, LibevBackend_write_m cur resume [io_arg] sys = .rb_raise .rb_eRuntimeError) ∧
    (∀ io_arg buf, LibevBackend_write_m cur resume [io_arg, buf] sys
      = .ran (LibevBackend_write_call cur resume io_arg buf sys).1
          (LibevBackend_write_call cur resume io_arg buf sys).2) ∧
    (∀ io_arg b1 b2 bufs, LibevBackend_write_m cur resume (io_arg :: b1 :: b2 :: bufs) sys
      = .ran (LibevBackend_writev_call cur resume io_arg (b1 :: b2 :: bufs) sys).1
          (LibevBackend_writev_call cur resume io_arg (b1 :: b2 :: bufs) sys).2) ∧
    (∀ fd obj bytes, LibevBackend_write_call cur resume (.handle fd) (.str obj bytes) sys
      = LibevBackend_write fd cur resume bytes sys) ∧
    (∀ fd o1 s1 o2 s2, LibevBackend_writev_call cur resume (.handle fd)
        [.str o1 s1, .str o2 s2] sys
      = LibevBackend_writev fd cur resume [s1, s2] sys) := by
  refine ⟨rfl, fun _ => rfl, fun _ _ => rfl, fun _ _ _ bufs => ?_, fun _ _ _ => rfl,
    fun _ _ _ _ _ => rfl⟩
  simp [LibevBackend_write_m]

/-- C11 (the code at the failing input): the write entry point called with the io alone, or
with no argument at all, raises a RuntimeError, which is not the ArgumentError that the
comment in the source asks for. -/
theorem write_m_raises_runtime_error :
    LibevBackend_write_m 1 (fun _ => .Qnil) [.handle 5] [.ok 1]
      = EntryResult.rb_raise ErrorClass.rb_eRuntimeError ∧
    LibevBackend_write_m 1 (fun _ => .Qnil) [] [.ok 1]
      = EntryResult.rb_raise ErrorClass.rb_eRuntimeError ∧
    ErrorClass.rb_eRuntimeError ≠ ErrorClass.rb_eArgError := by
  decide

/-- Example for C11: with two arguments the entry point writes the string; with three it sends
the two strings with writev, in the order given. -/
theorem write_m_example :
    LibevBackend_write_m 1 (fun _ => .Qnil) [.handle 5, .str 7 [1, 2]] [.ok 2]
      = .ran (.returned (.int 2)) [.sys_write 5 0 2 (.ok 2), .snooze .Qnil] ∧
    LibevBackend_write_m 1 (fun _ => .Qnil) [.handle 5, .str 7 [1, 2], .str 8 [3]] [.ok 3]
      = .ran (.returned (.int 3))
          [.malloc_iov 2, .sys_writev 5 [⟨(0, 0), 2⟩, ⟨(1, 0), 1⟩] (.ok 3), .snooze .Qnil,
           .free_iov] := by
  decide

/-! ## Theorems: what follows a successful read -/

theorem read_discipline_split (fd : Int) (eof dyn : Bool) (out : Outcome) (fd' : Int)
    (buf : Nat) (count : Int) (data : List Byte) (post : List Event) :
    ∀ pre : List Event,
      read_discipline fd eof dyn out (pre ++ Event.sys_read fd' buf count (.ok data) :: post) →
      after_read fd eof dyn out buf count data post := by
  intro pre
  induction pre with
  | nil => intro h; exact h.1
  | cons e t ih =>
    intro h
    cases e with
    | sys_read l b c r =>
      cases r with
      | fail e' => exact ih h
      | ok d => exact ih h.2
    | _ => exact ih h

theorem read_while_next (fd : Int) (cur : Nat) (resume : Nat → VALUE) (dyn eof : Bool)
    (rest : List (Sys (List Byte))) (st : ReadState) :
    next_read fd st.buf (st.len - st.total)
      (read_outcome (LibevBackend_read_while fd cur resume dyn eof rest st).1)
      (LibevBackend_read_while fd cur resume dyn eof rest st).2 := by
  cases rest with
  | nil => left; simp [LibevBackend_read_while, read_outcome]
  | cons r rest =>
    right
    obtain ⟨t, ht⟩ := read_while_head fd cur resume dyn eof r rest st
    exact ⟨r, t, ht⟩

theorem after_read_cancel (fd : Int) (eof dyn : Bool) (buf : Nat) (count : Int)
    (data : List Byte) (v : VALUE) (h : TEST_EXCEPTION v = true) :
    after_read fd eof dyn (Outcome.raised v) buf count data [Event.snooze v] := by
  refine ⟨v, [], rfl, fun _ => ⟨rfl, rfl⟩, fun h' => ?_⟩
  rw [h] at h'
  cases h'

theorem after_read_return (fd : Int) (eof dyn : Bool) (out : Outcome) (buf : Nat) (count : Int)
    (data : List Byte) (v : VALUE) (hv : TEST_EXCEPTION v = false)
    (hout : ∃ w, out = Outcome.returned w)
    (hstop : data = [] ∨ eof = false ∨ ((data.length : Int) = count ∧ dyn = false)) :
    after_read fd eof dyn out buf count data [Event.snooze v] := by
  refine ⟨v, [], rfl, fun h' => ?_, fun _ => ⟨?_, ?_, ?_, ?_, ?_⟩⟩
  · rw [hv] at h'
    cases h'
  · exact fun _ => ⟨rfl, hout⟩
  · exact fun _ _ => ⟨rfl, hout⟩
  · intro hd he hlt
    rcases hstop with h | h | h
    · exact absurd h hd
    · rw [he] at h; cases h
    · omega
  · exact fun _ _ _ _ => ⟨rfl, hout⟩
  · intro hd he _ hdyn
    rcases hstop with h | h | h
    · exact absurd h hd
    · rw [he] at h; cases h
    · rw [hdyn] at h; cases h.2

theorem after_read_more (fd : Int) (dyn : Bool) (out : Outcome) (buf : Nat) (count : Int)
    (data : List Byte) (v : VALUE) (rest : List Event) (hv : TEST_EXCEPTION v = false)
    (hd : data ≠ []) (hne : (data.length : Int) ≠ count)
    (hnext : next_read fd (buf + data.length) (count - data.length) out rest) :
    after_read fd true dyn out buf count data (Event.snooze v :: rest) := by
  refine ⟨v, rest, rfl, fun h' => ?_, fun _ => ⟨?_, ?_, ?_, ?_, ?_⟩⟩
  · rw [hv] at h'
    cases h'
  · exact fun h => absurd h hd
  · intro _ h
    cases h
  · exact fun _ _ _ => hnext
  · exact fun _ _ h _ => absurd h hne
  · exact fun _ _ h _ => absurd h hne

theorem after_read_double (fd : Int) (out : Outcome) (buf : Nat) (count : Int)
    (data : List Byte) (v : VALUE) (rest : List Event) (hv : TEST_EXCEPTION v = false)
    (hd : data ≠ []) (hfull : (data.length : Int) = count)
    (hnext : next_read fd (buf + data.length) ((buf + data.length : Nat) : Int) out rest) :
    after_read fd true true out buf count data (Event.snooze v :: rest) := by
  refine ⟨v, rest, rfl, fun h' => ?_, fun _ => ⟨?_, ?_, ?_, ?_, ?_⟩⟩
  · rw [hv] at h'
    cases h'
  · exact fun h => absurd h hd
  · intro _ h
    cases h
  · intro _ _ h
    omega
  · intro _ _ _ h
    cases h
  · exact fun _ _ _ _ => hnext

/-- Discipline of the loop of read: the offset of the buffer pointer is `total` throughout, and
every successful `read` is followed as `after_read` says. -/
theorem read_while_discipline (fd : Int) (cur : Nat) (resume : Nat → VALUE) (dyn eof : Bool) :
    ∀ (sys : List (Sys (List Byte))) (st : ReadState),
      (st.buf : Int) = st.total →
      read_discipline fd eof dyn
        (read_outcome (LibevBackend_read_while fd cur resume dyn eof sys st).1)
        (LibevBackend_read_while fd cur resume dyn eof sys st).2 := by
  intro sys
  induction sys with
  | nil => intro st _; simp [LibevBackend_read_while, read_discipline]
  | cons r rest ih =>
    intro st hbt
    cases r with
    | fail e =>
      by_cases hf : fatal_errno e = true
      · simp [LibevBackend_read_while, hf, read_discipline]
      · by_cases hx : TEST_EXCEPTION (resume st.susp) = true
        · simp [LibevBackend_read_while, hf, hx, read_discipline]
        · simp only [LibevBackend_read_while, hf, hx, if_false, Bool.false_eq_true,
            read_discipline]
          exact ih _ hbt
    | ok data =>
      by_cases hx : TEST_EXCEPTION (resume st.susp) = true
      · have ha := after_read_cancel fd eof dyn st.buf (st.len - st.total) data
          (resume st.susp) hx
        simp only [LibevBackend_read_while, hx, if_true, read_discipline, read_outcome]
        exact ⟨ha, trivial⟩
      · have hv : TEST_EXCEPTION (resume st.susp) = false := by
          cases h : TEST_EXCEPTION (resume st.susp) <;> simp_all
        by_cases hn : (data.length : Int) = 0
        · have hd0 : data = [] := by
            have : data.length = 0 := by exact_mod_cast hn
            exact List.length_eq_zero.mp this
          simp only [LibevBackend_read_while, hx, hn, if_true, if_false, Bool.false_eq_true,
            read_discipline]
          refine ⟨after_read_return fd eof dyn _ st.buf (st.len - st.total) data
            (resume st.susp) hv ?_ (Or.inl hd0), trivial⟩
          simp only [read_outcome]
          split_ifs <;> exact ⟨_, rfl⟩
        · have hdne : data ≠ [] := by
            intro h
            rw [h] at hn
            exact hn rfl
          by_cases he : eof = false
          · subst he
            simp only [LibevBackend_read_while, hx, hn, if_true, if_false, Bool.false_eq_true,
              Bool.not_false, read_discipline]
            refine ⟨after_read_return fd false dyn _ st.buf (st.len - st.total) data
              (resume st.susp) hv ?_ (Or.inr (Or.inl rfl)), trivial⟩
            simp only [read_outcome]
            split_ifs <;> exact ⟨_, rfl⟩
          · have he' : eof = true := by cases eof <;> simp_all
            subst he'
            by_cases hfull : st.total + (data.length : Int) = st.len
            · have hfc : (data.length : Int) = st.len - st.total := by omega
              by_cases hd : dyn = false
              · subst hd
                simp only [LibevBackend_read_while, hx, hn, hfull, if_true, if_false,
                  Bool.false_eq_true, Bool.not_false, Bool.not_true, read_discipline]
                refine ⟨after_read_return fd true false _ st.buf (st.len - st.total) data
                  (resume st.susp) hv ?_ (Or.inr (Or.inr ⟨hfc, rfl⟩)), trivial⟩
                simp only [read_outcome]
                split_ifs <;> exact ⟨_, rfl⟩
              · have hd' : dyn = true := by cases dyn <;> simp_all
                subst hd'
                have hnext := read_while_next fd cur resume true true rest
                  ⟨rb_str_modify_expand
                      (rb_str_resize ⟨st.str.obj, store st.str.mem st.buf data, st.str.len⟩
                        st.len.toNat) st.len.toNat,
                    st.len.toNat, st.len + st.len, st.len, false, st.watcher_fiber,
                    st.susp + 1⟩
                have e1 : st.len.toNat = st.buf + data.length := by omega
                have e2 : st.len + st.len - st.len = ((st.buf + data.length : Nat) : Int) := by
                  push_cast
                  omega
                simp only [e2] at hnext
                rw [e1] at hnext
                have hrec := ih
                  ⟨rb_str_modify_expand
                      (rb_str_resize ⟨st.str.obj, store st.str.mem st.buf data, st.str.len⟩
                        st.len.toNat) st.len.toNat,
                    st.len.toNat, st.len + st.len, st.len, false, st.watcher_fiber,
                    st.susp + 1⟩ (by simp only; omega)
                rw [e1] at hrec
                simp only [LibevBackend_read_while, hx, hn, hfull, if_true, if_false,
                  Bool.false_eq_true, Bool.not_true, read_discipline]
                rw [e1]
                exact ⟨after_read_double fd _ st.buf (st.len - st.total) data (resume st.susp)
                  _ hv hdne hfc hnext, hrec⟩
            · have hne : (data.length : Int) ≠ st.len - st.total := by omega
              have hnext := read_while_next fd cur resume dyn true rest
                ⟨⟨st.str.obj, store st.str.mem st.buf data, st.str.len⟩,
                  st.buf + (data.length : Int).toNat, st.len, st.total + data.length,
                  st.shrinkable, st.watcher_fiber, st.susp + 1⟩
              have e2 : st.len - (st.total + (data.length : Int))
                  = st.len - st.total - (data.length : Int) := by omega
              simp only [Int.toNat_ofNat, e2] at hnext
              have hrec := ih
                ⟨⟨st.str.obj, store st.str.mem st.buf data, st.str.len⟩,
                  st.buf + (data.length : Int).toNat, st.len, st.total + data.length,
                  st.shrinkable, st.watcher_fiber, st.susp + 1⟩
                (by simp only [Int.toNat_ofNat]; push_cast; omega)
              simp only [Int.toNat_ofNat] at hrec
              simp only [LibevBackend_read_while, hx, hn, hfull, if_true, if_false,
                Bool.false_eq_true, Bool.not_true, read_discipline, Int.toNat_ofNat]
              exact ⟨after_read_more fd dyn _ st.buf (st.len - st.total) data (resume st.susp)
                _ hv hdne hne hnext, hrec⟩

theorem read_outcome_spec (fd : Int) (cur : Nat) (resume : Nat → VALUE) (alloc : Nat)
    (str : Option (Nat × List Byte)) (length : Option Int) (to_eof : VALUE)
    (sys : List (Sys (List Byte))) (hlen : 0 ≤ length.getD 4096) :
    LibevBackend_read fd cur resume alloc str length to_eof sys
      = (read_outcome (LibevBackend_read_while fd cur resume length.isNone (RTEST to_eof) sys
            (read_init str (length.getD 4096) alloc)).1,
          (LibevBackend_read_while fd cur resume length.isNone (RTEST to_eof) sys
            (read_init str (length.getD 4096) alloc)).2) := by
  have hnl : ¬ (length.getD 4096 < 0) := by omega
  unfold LibevBackend_read
  simp only [hnl, if_false]
  cases hx : (LibevBackend_read_while fd cur resume length.isNone (RTEST to_eof) sys
      (read_init str (length.getD 4096) alloc)).1 with
  | done st =>
    by_cases h0 : st.total = 0
    · simp [h0, read_outcome]
    · simp [h0, read_outcome]
  | error e => simp [read_outcome]
  | syserr e => simp [read_outcome]
  | unmodelled => simp [read_outcome]
  | pending => simp [read_outcome]

/-- C12 (as amended): in every read call, a read system call that stores n > 0 bytes is
followed by the snooze and then, unless the snooze is cancelled: with to_eof true and
total + n < len (n below the count asked), by another read system call past the bytes stored,
for the rest of the count (or by the end of the script), never by the return; with to_eof true
and total + n = len, by the return (explicit length) or by a read for as many bytes again as
are stored so far (dynamic mode, the capacity doubled); with to_eof false, by the return at
once, whatever total + n is. -/
theorem read_continues_until_full (fd : Int) (cur : Nat) (resume : Nat → VALUE) (alloc : Nat)
    (str : Option (Nat × List Byte)) (length : Option Int) (to_eof : VALUE)
    (sys : List (Sys (List Byte))) (pre : List Event) (fd' : Int) (buf : Nat) (count : Int)
    (data : List Byte) (post : List Event)
    (hsplit : (LibevBackend_read fd cur resume alloc str length to_eof sys).2
      = pre ++ Event.sys_read fd' buf count (.ok data) :: post) :
    after_read fd (RTEST to_eof) length.isNone
      (LibevBackend_read fd cur resume alloc str length to_eof sys).1 buf count data post := by
  by_cases hlen : 0 ≤ length.getD 4096
  · have hspec := read_outcome_spec fd cur resume alloc str length to_eof sys hlen
    obtain ⟨hb, ht, _, _, _⟩ := read_init_spec str (length.getD 4096) alloc hlen
    have hd := read_while_discipline fd cur resume length.isNone (RTEST to_eof) sys
      (read_init str (length.getD 4096) alloc) (by rw [hb, ht]; rfl)
    rw [hspec] at hsplit ⊢
    simp only at hsplit ⊢
    rw [hsplit] at hd
    exact read_discipline_split fd _ _ _ fd' buf count data post pre hd
  · have hneg : length.getD 4096 < 0 := by omega
    have : (LibevBackend_read fd cur resume alloc str length to_eof sys).2 = [] := by
      simp [LibevBackend_read, hneg]
    rw [this] at hsplit
    simp at hsplit

/-- Witness of C12 (as amended): length 5, to_eof true; the first read stores 2 of the 5 bytes
asked, and is followed by the snooze and by a read of 3 bytes at offset 2. -/
theorem read_continues_until_full_witness :
    after_read 5 (RTEST .Qtrue) (some (5 : Int)).isNone
      (LibevBackend_read 5 1 (fun _ => .Qnil) 100 none (some 5) .Qtrue
        [.ok [1, 2], .ok [3, 4, 5]]).1 0 5 [1, 2]
      [.snooze .Qnil, .sys_read 5 2 3 (.ok [3, 4, 5]), .snooze .Qnil] :=
  read_continues_until_full 5 1 (fun _ => .Qnil) 100 none (some 5) .Qtrue
    [.ok [1, 2], .ok [3, 4, 5]] [] 5 0 5 [1, 2]
    [.snooze .Qnil, .sys_read 5 2 3 (.ok [3, 4, 5]), .snooze .Qnil] (by decide)

/-- C12 (counterexample): length 5, to_eof false. The first read system call returns n = 2
bytes, so total + n = 2 < 5, yet read returns these two bytes at once: no other read system
call is attempted although the kernel had more to give. -/
theorem read_partial_returns_counterexample :
    LibevBackend_read 5 1 (fun _ => .Qnil) 100 none (some 5) .Qfalse [.ok [1, 2], .ok [3, 4, 5]]
      = (Outcome.returned (.str 100 [1, 2]),
          [.sys_read 5 0 5 (.ok [1, 2]), .snooze .Qnil]) := by
  decide

end Polyphony
